import Mathlib

/-!
Shallow embedding of the lousa-assurance risk evaluator.

Sources embedded below:
  * `src/src/lousa/models.py` — the claim data model (`Posture`, `EvidenceItem`,
    `Investigation`, `Claim`, `RiskNote`);
  * `src/src/lousa/eval.py` — the Bayesian log-odds engine (`_clamp_prob`,
    `_prob_to_logodds`, `_logodds_to_prob`, `_half_life_decay`,
    `_map_posture`, `_decay_prior_logodds`, `evaluate_claim`, `evaluate_note`);
  * `src/src/lousa/epistemic.py` — the Kripke model (`holds`, `believes`,
    `believes_believes`) and the temporal check (`check_G_implies_F`);
  * `src/src/lousa/assurance.py` — `build_kripke` and `evaluate_claims`;
  * `src/safety_protocol.py` — the greedy budget selection of `prioritize_cmd`.

Modelling conventions: Python floats are modelled as real numbers, datetimes as
rational timestamps (seconds since the epoch, so that `total_seconds() / 86400`
becomes subtraction and division by 86400), Python dicts as association lists in
insertion order, Python sets of world ids as duplicate-free lists in insertion
order, and a raised exception as the `Except.error` branch of an `Except`
result.  Warnings printed by `evaluate_note` are collected in a `warnings`
field of the result structure.
-/

namespace Lousa

/-- Posture enum from `models.py`. -/
inductive Posture where
  | ACCEPTABLE
  | CONDITIONAL
  | BLOCKING
  | EXPIRED
deriving DecidableEq, Repr

/-- Evaluation failures raised in `eval.py`.  Each constructor is one `raise`
site reachable in the real-number semantics, carrying exactly the data the
Python message interpolates; note that no constructor other than the claim-id
lookup-free ones exists, i.e. an `EvaluationError` value does not carry the
id of the claim being evaluated. -/
inductive EvalErr where
  /-- `EvaluationError(f"Invalid prior probability: {claim.prior}")` from
  `_decay_prior_logodds`, wrapping the `ValueError` of `_prob_to_logodds`. -/
  | invalidPrior (p : ℝ)
  /-- `EvaluationError(f"Error processing evidence {ev.id}: {e}")` from the
  evidence loop of `evaluate_claim` (the `ValueError` of `math.log(lr)` with
  `lr <= 0`). -/
  | evidence (evidence_id : String)
  /-- `EvaluationError(f"Invalid posterior probability: {posterior}")` from
  `_map_posture`. -/
  | invalidPosterior (p : ℝ)
  /-- `EvaluationError(f"Invalid thresholds: ...")` from `_map_posture`. -/
  | invalidThresholds (tc tb : ℝ)

/-- Evidence item from `models.py` (fields used by `eval.py`). -/
structure EvidenceItem where
  id : String
  title : Option String := none
  observed_at : ℚ
  supports : Bool
  lr_pos : ℝ
  lr_neg : ℝ
  weight : ℝ
  halflife_days : Option ℝ := none

/-- Investigation from `models.py` (fields used by `evaluate_note`). -/
structure Investigation where
  id : String
  title : String
  expected_lr_support : ℝ
  expected_lr_refute : ℝ
  cost_hours : ℝ
  probability_support : ℝ

/-- Claim from `models.py` (fields used by `eval.py`).  The structure models
the raw record the evaluator receives; the pydantic validators are separate
and are not assumed here, exactly as `evaluate_claim` itself re-checks what it
needs. -/
structure Claim where
  id : String
  title : String
  prior : ℝ
  threshold_conditional : ℝ
  threshold_blocking : ℝ
  valid_from : Option ℚ := none
  valid_until : Option ℚ := none
  staleness_halflife_days : Option ℝ := none
  evidence : List EvidenceItem := []
  investigations : List Investigation := []

/-- RiskNote from `models.py`. -/
structure RiskNote where
  version : String
  id : String
  title : String
  claims : List Claim

/-- Trace entry recorded for each evidence item (`EvidenceContribution` in
`eval.py`); `observed_at` keeps the timestamp the Python code serialises. -/
structure EvidenceContribution where
  evidence_id : String
  title : Option String
  supports : Bool
  lr_applied : ℝ
  weight : ℝ
  decay : ℝ
  delta_logodds : ℝ
  observed_at : ℚ

/-- Result of `evaluate_claim` (`ClaimResult` in `eval.py`). -/
structure ClaimResult where
  claim_id : String
  title : String
  posterior : ℝ
  posture : Posture
  expired : Bool
  prior : ℝ
  prior_decay : ℝ
  prior_logodds_decayed : ℝ
  contributions : List EvidenceContribution

section RealEval

open scoped Classical

/-- Epsilon of `_clamp_prob` (`eps = 1e-9`). -/
noncomputable def eps : ℝ := 1 / 1000000000

/-- `_clamp_prob`: clamp a probability to `[eps, 1 - eps]`. -/
noncomputable def clamp_prob (p : ℝ) : ℝ := min (max p eps) (1 - eps)

/-- `_prob_to_logodds`: `ValueError` (`none`) unless `0 < p < 1`, else
`log(p / (1 - p))` of the clamped probability. -/
noncomputable def prob_to_logodds (p : ℝ) : Option ℝ :=
  if 0 < p ∧ p < 1 then some (Real.log (clamp_prob p / (1 - clamp_prob p))) else none

/-- `_logodds_to_prob`: numerically stable logistic, branching on the sign. -/
noncomputable def logodds_to_prob (l : ℝ) : ℝ :=
  if l ≥ 0 then 1 / (1 + Real.exp (-l)) else Real.exp l / (1 + Real.exp l)

/-- `_half_life_decay`: `0.5 ** (max(age_days, 0) / halflife_days)`, or `1.0`
when no positive half-life is configured. -/
noncomputable def half_life_decay (age_days : ℝ) (halflife_days : Option ℝ) : ℝ :=
  match halflife_days with
  | none => 1
  | some h => if h ≤ 0 then 1 else ((1 : ℝ) / 2) ^ (max age_days 0 / h)

/-- Age in days between two timestamps: `(a - b).total_seconds() / 86400.0`. -/
noncomputable def age_days (a b : ℚ) : ℝ := (((a - b : ℚ)) : ℝ) / 86400

/-- Expiration test of `evaluate_claim`:
`expired = bool(claim.valid_until and now > claim.valid_until)`. -/
def claim_expired (claim : Claim) (now : ℚ) : Bool :=
  match claim.valid_until with
  | none => false
  | some vu => decide (vu < now)

/-- `_map_posture`: posture from posterior, thresholds and expiration, in the
priority order of the source. -/
noncomputable def map_posture (posterior : ℝ) (claim : Claim) (expired : Bool) :
    Except EvalErr Posture :=
  if ¬ (0 ≤ posterior ∧ posterior ≤ 1) then
    .error (.invalidPosterior posterior)
  else if expired then
    .ok .EXPIRED
  else if ¬ (0 < claim.threshold_conditional ∧
      claim.threshold_conditional < claim.threshold_blocking ∧
      claim.threshold_blocking < 1) then
    .error (.invalidThresholds claim.threshold_conditional claim.threshold_blocking)
  else if claim.threshold_blocking ≤ posterior then
    .ok .BLOCKING
  else if claim.threshold_conditional ≤ posterior then
    .ok .CONDITIONAL
  else
    .ok .ACCEPTABLE

/-- `_decay_prior_logodds`: prior log-odds with staleness decay.  The Python
guard `if claim.staleness_halflife_days and claim.valid_from` treats the float
`0.0` as falsy, hence the extra `h ≠ 0` test. -/
noncomputable def decay_prior_logodds (claim : Claim) (now : ℚ) :
    Except EvalErr (ℝ × ℝ) :=
  match prob_to_logodds claim.prior with
  | none => .error (.invalidPrior claim.prior)
  | some logodds =>
    match claim.staleness_halflife_days, claim.valid_from with
    | some h, some vf =>
      if h ≠ 0 then
        let decay := half_life_decay (age_days now vf) (some h)
        .ok (logodds * decay, decay)
      else
        .ok (logodds, 1)
    | _, _ => .ok (logodds, 1)

/-- Likelihood ratio an item applies: `ev.lr_pos if ev.supports else ev.lr_neg`. -/
def ev_lr (ev : EvidenceItem) : ℝ := if ev.supports then ev.lr_pos else ev.lr_neg

/-- Temporal decay applied to one evidence item at time `now`. -/
noncomputable def ev_decay (now : ℚ) (ev : EvidenceItem) : ℝ :=
  half_life_decay (age_days now ev.observed_at) ev.halflife_days

/-- Net log-odds contribution of one evidence item:
`delta = log(lr) * weight * decay`. -/
noncomputable def ev_delta (now : ℚ) (ev : EvidenceItem) : ℝ :=
  Real.log (ev_lr ev) * ev.weight * ev_decay now ev

/-- Evidence loop of `evaluate_claim`: fold the (already sorted) evidence into
the running log-odds, recording one contribution per item; the first item with
`lr <= 0` raises (`math.log` `ValueError`, wrapped per item). -/
noncomputable def apply_evidence (now : ℚ) :
    List EvidenceItem → ℝ → Except EvalErr (ℝ × List EvidenceContribution)
  | [], logodds => .ok (logodds, [])
  | ev :: rest, logodds =>
    if ev_lr ev ≤ 0 then
      .error (.evidence ev.id)
    else
      match apply_evidence now rest (logodds + ev_delta now ev) with
      | .error e => .error e
      | .ok (l, cs) =>
        .ok (l,
          { evidence_id := ev.id
            title := ev.title
            supports := ev.supports
            lr_applied := ev_lr ev
            weight := ev.weight
            decay := ev_decay now ev
            delta_logodds := ev_delta now ev
            observed_at := ev.observed_at } :: cs)

/-- Chronological sort of the evidence
(`sorted(claim.evidence, key=lambda e: e.observed_at)`, a stable sort). -/
def sort_evidence (evs : List EvidenceItem) : List EvidenceItem :=
  evs.mergeSort (fun a b => decide (a.observed_at ≤ b.observed_at))

/-- `evaluate_claim` from `eval.py`: Bayesian update in log-odds space with
decay, returning the full trace, or the first `EvaluationError` raised. -/
noncomputable def evaluate_claim (claim : Claim) (now : ℚ) :
    Except EvalErr ClaimResult :=
  let expired := claim_expired claim now
  match decay_prior_logodds claim now with
  | .error e => .error e
  | .ok (prior_logodds_decayed, prior_decay) =>
    match apply_evidence now (sort_evidence claim.evidence) prior_logodds_decayed with
    | .error e => .error e
    | .ok (logodds, contribs) =>
      let posterior := logodds_to_prob logodds
      match map_posture posterior claim expired with
      | .error e => .error e
      | .ok posture =>
        .ok
          { claim_id := claim.id
            title := claim.title
            posterior := posterior
            posture := posture
            expired := expired
            prior := claim.prior
            prior_decay := prior_decay
            prior_logodds_decayed := prior_logodds_decayed
            contributions := contribs }

/-- Severity order of `evaluate_note`'s `posture_priority` dict. -/
def posture_priority : Posture → ℤ
  | .BLOCKING => 3
  | .CONDITIONAL => 2
  | .ACCEPTABLE => 1
  | .EXPIRED => 0

/-- Python `max(xs, default=dflt, key=posture_priority)`: the default for an
empty iterable, otherwise the first element of maximal key. -/
def posture_max (xs : List Posture) (dflt : Posture) : Posture :=
  match xs with
  | [] => dflt
  | x :: rest =>
    rest.foldl (fun b p => if posture_priority b < posture_priority p then p else b) x

/-- Rollup of `evaluate_note`: most severe posture among the non-expired claim
results, `ACCEPTABLE` when there is none (`default=Posture.ACCEPTABLE`). -/
def overall_of (claim_results : List ClaimResult) : Posture :=
  posture_max ((claim_results.filter (fun cr => ! cr.expired)).map (·.posture))
    .ACCEPTABLE

/-- Per-claim loop of `evaluate_note`: evaluate each claim, keeping the
successes in order and collecting, in order, the warning printed for each
claim whose evaluation raised `EvaluationError`. -/
noncomputable def eval_note_claims (now : ℚ) :
    List Claim → List ClaimResult × List EvalErr
  | [] => ([], [])
  | c :: rest =>
    let (rs, ws) := eval_note_claims now rest
    match evaluate_claim c now with
    | .ok r => (r :: rs, ws)
    | .error e => (rs, e :: ws)

/-- Recommendation record built by `evaluate_note`. -/
structure Recommendation where
  investigation_id : String
  title : String
  claim_id : String
  claim_title : String
  expected_delta : ℝ
  cost_hours : ℝ
  delta_per_hour : ℝ
  probability_support : ℝ

/-- An exception `evaluate_note` itself does not catch: the `ValueError` of a
bare `_prob_to_logodds` or `math.log` call in its recommendation loop. -/
inductive NoteErr where
  | valueError

/-- Inner investigation loop of `evaluate_note` for one claim: skip
investigations with `probability_support` at or beyond the open boundary,
compute both hypothetical posteriors, skip negligible or non-positive-cost
items, and otherwise emit a recommendation.  `math.log` of a non-positive
expected LR raises. -/
noncomputable def recs_for_claim (claim : Claim) (cr : ClaimResult)
    (current_logodds : ℝ) :
    List Investigation → Except NoteErr (List Recommendation)
  | [] => .ok []
  | inv :: rest =>
    if inv.probability_support ≤ 0 ∨ 1 ≤ inv.probability_support then
      recs_for_claim claim cr current_logodds rest
    else if inv.expected_lr_support ≤ 0 ∨ inv.expected_lr_refute ≤ 0 then
      .error .valueError
    else
      let support_posterior :=
        logodds_to_prob (current_logodds + Real.log inv.expected_lr_support)
      let refute_posterior :=
        logodds_to_prob (current_logodds + Real.log inv.expected_lr_refute)
      let expected_delta :=
        inv.probability_support * (support_posterior - cr.posterior) +
          (1 - inv.probability_support) * (refute_posterior - cr.posterior)
      if |expected_delta| < 1 / 1000000 ∨ inv.cost_hours ≤ 0 then
        recs_for_claim claim cr current_logodds rest
      else
        match recs_for_claim claim cr current_logodds rest with
        | .error e => .error e
        | .ok recs =>
          .ok
            ({ investigation_id := inv.id
               title := inv.title
               claim_id := claim.id
               claim_title := claim.title
               expected_delta := expected_delta
               cost_hours := inv.cost_hours
               delta_per_hour := |expected_delta| / inv.cost_hours
               probability_support := inv.probability_support } :: recs)

/-- Outer recommendation loop of `evaluate_note`: claims without
investigations or without a successful result are skipped; otherwise the
current posterior is converted back to log-odds (a bare `_prob_to_logodds`
call whose `ValueError` would propagate). -/
noncomputable def build_recommendations (now : ℚ) (claim_results : List ClaimResult) :
    List Claim → Except NoteErr (List Recommendation)
  | [] => .ok []
  | c :: rest =>
    if c.investigations.isEmpty then
      build_recommendations now claim_results rest
    else
      match claim_results.find? (fun cr => cr.claim_id == c.id) with
      | none => build_recommendations now claim_results rest
      | some cr =>
        match prob_to_logodds cr.posterior with
        | none => .error .valueError
        | some current_logodds =>
          match recs_for_claim c cr current_logodds c.investigations with
          | .error e => .error e
          | .ok recs =>
            match build_recommendations now claim_results rest with
            | .error e => .error e
            | .ok rest_recs => .ok (recs ++ rest_recs)

/-- Comparator of the final
`recommendations.sort(key=lambda r: r["delta_per_hour"], reverse=True)`:
a stable descending sort by `delta_per_hour`. -/
noncomputable def rec_ge (a b : Recommendation) : Bool :=
  decide (b.delta_per_hour ≤ a.delta_per_hour)

/-- Result of `evaluate_note` (`NoteEvaluationResult` in `eval.py`), plus the
`warnings` the Python code prints to stdout for skipped claims. -/
structure NoteEvaluationResult where
  note_id : String
  title : String
  evaluated_at : ℚ
  overall_posture : Posture
  claims : List ClaimResult
  recommendations : List Recommendation
  warnings : List EvalErr

/-- `evaluate_note` from `eval.py`: evaluate every claim (skipping, with a
warning, any claim whose evaluation raises `EvaluationError`), roll up the
overall posture, and rank investigations by expected value per hour. -/
noncomputable def evaluate_note (note : RiskNote) (now : ℚ) :
    Except NoteErr NoteEvaluationResult :=
  let (claim_results, warnings) := eval_note_claims now note.claims
  match build_recommendations now claim_results note.claims with
  | .error e => .error e
  | .ok recs =>
    .ok
      { note_id := note.id
        title := note.title
        evaluated_at := now
        overall_posture := overall_of claim_results
        claims := claim_results
        recommendations := recs.mergeSort rec_ge
        warnings := warnings }

end RealEval

/-! Embedding of `src/src/lousa/epistemic.py` and `src/src/lousa/assurance.py`.
Dicts are association lists in insertion order; `dict.get(k, default)` is a
first-match lookup with a default, and a bare `dict[k]` that misses raises
`KeyError`. -/

/-- First-match association-list lookup (Python dict access by key). -/
def alookup {β : Type} (m : List (String × β)) (k : String) : Option β :=
  (m.find? (fun p => p.1 == k)).map (·.2)

/-- Dict insertion `m[k] = v`: replace the first binding in place, else append. -/
def dinsert {β : Type} (m : List (String × β)) (k : String) (v : β) :
    List (String × β) :=
  match m with
  | [] => [(k, v)]
  | (k0, v0) :: rest =>
    if k0 == k then (k, v) :: rest else (k0, v0) :: dinsert rest k v

/-- Set insertion used for `self.rel[agent].setdefault(frm, set()).add(to)`:
append if absent (set membership semantics, insertion order kept). -/
def sadd (s : List String) (x : String) : List String :=
  if x ∈ s then s else s ++ [x]

/-- Hard errors of the epistemic path: `KeyError` from `self.worlds[w]` on an
unknown world id, and `StopIteration` from `next(iter(M.worlds.keys()))` on a
model with no worlds. -/
inductive LookupErr where
  | keyError (world_id : String)
  | stopIteration
deriving DecidableEq, Repr

/-- World from `epistemic.py`. -/
structure World where
  id : String
  facts : List String

/-- KripkeModel state after construction: worlds dict and per-agent relation. -/
structure KripkeModel where
  logic : String
  agents : List String
  worlds : List (String × World)
  rel : List (String × List (String × List String))

/-- `KripkeModel.successors`: `self.rel.get(agent, {}).get(w, set())` — both
lookups default to empty, so an unknown agent or source world yields no
successors rather than an error. -/
def successors (M : KripkeModel) (agent w : String) : List String :=
  (alookup ((alookup M.rel agent).getD []) w).getD []

/-- `KripkeModel.holds`: `prop in self.worlds[w].facts`; an unknown world id
raises `KeyError`, an unknown proposition is simply absent (False). -/
def holds (M : KripkeModel) (prop w : String) : Except LookupErr Bool :=
  match alookup M.worlds w with
  | none => .error (.keyError w)
  | some world => .ok (decide (prop ∈ world.facts))

/-- Successor loop of `KripkeModel.believes`: return `False` at the first
successor where the proposition fails, `True` when all hold. -/
def believes_loop (M : KripkeModel) (prop : String) :
    List String → Except LookupErr Bool
  | [] => .ok true
  | v :: rest =>
    match holds M prop v with
    | .error e => .error e
    | .ok b => if b then believes_loop M prop rest else .ok false

/-- `KripkeModel.believes`: the proposition holds in every world accessible
for the agent (vacuously true with no successors). -/
def believes (M : KripkeModel) (agent prop w : String) : Except LookupErr Bool :=
  believes_loop M prop (successors M agent w)

/-- Successor loop of `KripkeModel.believes_believes`. -/
def believes_believes_loop (M : KripkeModel) (agent prop : String) :
    List String → Except LookupErr Bool
  | [] => .ok true
  | v :: rest =>
    match believes M agent prop v with
    | .error e => .error e
    | .ok b => if b then believes_believes_loop M agent prop rest else .ok false

/-- `KripkeModel.believes_believes`: nested belief `BB`. -/
def believes_believes (M : KripkeModel) (agent prop w : String) :
    Except LookupErr Bool :=
  believes_believes_loop M agent prop (successors M agent w)

/-- One edge of a `belief_model` specification; `tgt` is the Python field
named `to`, a reserved word in Lean. -/
structure Edge where
  agent : String
  frm : String
  tgt : String

/-- The `belief_model` document shape consumed by `build_kripke`. -/
structure BeliefModel where
  logic : String
  agents : List String
  worlds : List (String × List String)
  edges : List Edge

/-- `KripkeModel.add_world`. -/
def add_world (M : KripkeModel) (world_id : String) (facts : List String) :
    KripkeModel :=
  { M with worlds := dinsert M.worlds world_id ⟨world_id, facts⟩ }

/-- `KripkeModel.add_edge`: ensure the agent has a relation dict, then add
the target world to the successor set of `frm`. -/
def add_edge (M : KripkeModel) (agent frm tgt : String) : KripkeModel :=
  let r := (alookup M.rel agent).getD []
  { M with rel := dinsert M.rel agent (dinsert r frm (sadd ((alookup r frm).getD []) tgt)) }

/-- Plain fact-adjacency graph and label map built by `build_kripke`:
`graph[wid] = []` for every world, then `graph.setdefault(frm, []).append(to)`
for every edge (duplicates kept, unknown `frm` added as a fresh key);
`label[wid] = set(facts)`. -/
def build_graph (bm : BeliefModel) : List (String × List String) :=
  bm.edges.foldl
    (fun g e =>
      match alookup g e.frm with
      | some succs => dinsert g e.frm (succs ++ [e.tgt])
      | none => g ++ [(e.frm, [e.tgt])])
    (bm.worlds.map (fun w => (w.1, ([] : List String))))

/-- Label map of `build_kripke`: world id to its facts. -/
def build_label (bm : BeliefModel) : List (String × List String) :=
  bm.worlds.map (fun w => (w.1, w.2))

/-- Kripke model of `build_kripke`: the constructor seeds `rel` with an empty
relation per agent (`self.rel = {a: {} for a in self.agents}`), then every
world and edge is added in order. -/
def build_model (bm : BeliefModel) : KripkeModel :=
  let M0 : KripkeModel :=
    { logic := bm.logic
      agents := bm.agents
      worlds := []
      rel := bm.agents.map (fun a => (a, ([] : List (String × List String)))) }
  let M1 := bm.worlds.foldl (fun M w => add_world M w.1 w.2) M0
  bm.edges.foldl (fun M e => add_edge M e.agent e.frm e.tgt) M1

/-- Adjacency lookup in the fact graph: `graph.get(u, [])`. -/
def adj (graph : List (String × List String)) (u : String) : List String :=
  (alookup graph u).getD []

/-- Fact lookup: `label.get(u, set())`. -/
def label_of (label : List (String × List String)) (u : String) : List String :=
  (alookup label u).getD []

/-- Every node mentioned in the graph: its keys and every adjacency target. -/
def graph_nodes (graph : List (String × List String)) : List String :=
  (graph.map (fun p : String × List String => p.1) ++
    graph.foldr (fun (p : String × List String) acc => p.2 ++ acc) []).dedup

/-- Neighbor loop of the BFS in `check_G_implies_F`: for each `v` adjacent to
the popped node, if unvisited, mark it visited and append it to the queue. -/
def bfs_push (vs : List String) (visited queue : List String) :
    List String × List String :=
  match vs with
  | [] => (visited, queue)
  | v :: rest =>
    if v ∈ visited then bfs_push rest visited queue
    else bfs_push rest (visited ++ [v]) (queue ++ [v])

/-- Nodes of the graph not yet visited, the decreasing part of the BFS
measure. -/
def unvisited_count (graph : List (String × List String))
    (visited : List String) : ℕ :=
  ((graph_nodes graph).toFinset \ visited.toFinset).card

theorem mem_foldr_targets {graph : List (String × List String)}
    {p : String × List String} {v : String} (hp : p ∈ graph) (hv : v ∈ p.2) :
    v ∈ graph.foldr (fun (p : String × List String) acc => p.2 ++ acc) [] := by
  induction hp with
  | head rest => exact List.mem_append_left _ hv
  | tail b hm ih => exact List.mem_append_right _ ih

theorem adj_mem_graph_nodes {graph : List (String × List String)}
    {u v : String} (h : v ∈ adj graph u) : v ∈ graph_nodes graph := by
  unfold adj at h
  unfold graph_nodes
  rw [List.mem_dedup]
  apply List.mem_append_right
  rcases hfind : alookup graph u with _ | succs
  · rw [hfind] at h
    simp at h
  · rw [hfind] at h
    simp only [Option.getD_some] at h
    unfold alookup at hfind
    rcases hmem : List.find? (fun p => p.1 == u) graph with _ | p
    · rw [hmem] at hfind
      simp at hfind
    · rw [hmem] at hfind
      simp only [Option.map_some'] at hfind
      have hpg := List.mem_of_find?_eq_some hmem
      cases hfind
      exact mem_foldr_targets hpg h

theorem unvisited_count_push {graph : List (String × List String)}
    {visited : List String} {v : String} (hg : v ∈ graph_nodes graph)
    (hv : v ∉ visited) :
    unvisited_count graph (visited ++ [v]) + 1 ≤ unvisited_count graph visited := by
  unfold unvisited_count
  have hmem : v ∈ (graph_nodes graph).toFinset \ visited.toFinset := by
    rw [Finset.mem_sdiff, List.mem_toFinset, List.mem_toFinset]
    exact ⟨hg, hv⟩
  have herase :
      (graph_nodes graph).toFinset \ (visited ++ [v]).toFinset =
        ((graph_nodes graph).toFinset \ visited.toFinset).erase v := by
    ext x
    simp only [Finset.mem_sdiff, List.mem_toFinset, List.mem_append,
      Finset.mem_erase, List.mem_singleton]
    constructor
    · rintro ⟨hx, hnx⟩
      push_neg at hnx
      exact ⟨hnx.2, hx, hnx.1⟩
    · rintro ⟨hne, hx, hnx⟩
      exact ⟨hx, by push_neg; exact ⟨hnx, hne⟩⟩
  rw [herase, Finset.card_erase_of_mem hmem]
  have hpos : 0 < ((graph_nodes graph).toFinset \ visited.toFinset).card :=
    Finset.card_pos.mpr ⟨v, hmem⟩
  omega

theorem bfs_push_measure {graph : List (String × List String)}
    (vs : List String) (h : ∀ v ∈ vs, v ∈ graph_nodes graph)
    (visited queue : List String) :
    unvisited_count graph (bfs_push vs visited queue).1 +
        (bfs_push vs visited queue).2.length ≤
      unvisited_count graph visited + queue.length := by
  induction vs generalizing visited queue with
  | nil => exact le_refl _
  | cons v rest ih =>
    by_cases hmem : v ∈ visited
    · rw [bfs_push, if_pos hmem]
      exact ih (fun x hx => h x (List.mem_cons_of_mem _ hx)) visited queue
    · rw [bfs_push, if_neg hmem]
      refine le_trans (ih (fun x hx => h x (List.mem_cons_of_mem _ hx)) _ _) ?_
      have hcard := unvisited_count_push (h v (List.mem_cons_self _ _)) hmem
      have hlen : (queue ++ [v]).length = queue.length + 1 := by simp
      omega

/-- BFS of `check_G_implies_F`: pop from the front of the queue, succeed as
soon as a popped node carries `q`, otherwise push its unvisited neighbors and
continue; an exhausted queue means no `q`-world is reachable.  Termination is
by the visited set growing within the finite node set. -/
def bfs_reach (graph label : List (String × List String)) (q : String) :
    List String → List String → Bool
  | _, [] => false
  | visited, u :: rest =>
    if q ∈ label_of label u then true
    else
      bfs_reach graph label q (bfs_push (adj graph u) visited rest).1
        (bfs_push (adj graph u) visited rest).2
termination_by visited queue => unvisited_count graph visited + queue.length
decreasing_by
  have h := bfs_push_measure (adj graph u)
    (fun v hv => adj_mem_graph_nodes hv) visited rest
  simp only [List.length_cons]
  omega

/-- One directed step in the plain fact-adjacency graph. -/
def StepRel (graph : List (String × List String)) (u v : String) : Prop :=
  v ∈ adj graph u

/-- Reachability in the fact-adjacency graph: the reflexive-transitive closure
of the edge relation, the specification the BFS is checked against. -/
def Reach (graph : List (String × List String)) : String → String → Prop :=
  Relation.ReflTransGen (StepRel graph)

/-- `check_G_implies_F` from `epistemic.py`: for every graph key whose label
holds `p`, a BFS seeded with that node (already visited and enqueued) must
find a node whose label holds `q`. -/
def check_G_implies_F (graph label : List (String × List String))
    (p q : String) : Bool :=
  (graph.map (fun e : String × List String => e.1)).all fun node =>
    if p ∈ label_of label node then bfs_reach graph label q [node] [node]
    else true

/-! Embedding of `evaluate_claims` from `src/src/lousa/assurance.py` over a
schema-validated document (YAML parsing and JSON-Schema validation are the
excluded collaborators). -/

/-- Spec payload of one assurance claim, the tagged shapes dispatched on
`c["type"]` and `spec.epistemic.op`. -/
inductive ClaimSpec where
  | temporal (p q : String)
  | epistemic (op agent prop : String)

/-- One claim of an assurance-case document. -/
structure ACClaim where
  id : String
  spec : ClaimSpec

/-- Assurance-case document shape consumed by `evaluate_claims`. -/
structure AssuranceDoc where
  systemName : String
  revision : String
  belief_model : BeliefModel
  claims : List ACClaim

/-- Claim loop of `evaluate_claims`: temporal claims run the graph check,
epistemic claims evaluate `B`/`BB` at the canonical world — the first world of
the model (`next(iter(M.worlds.keys()))`, `StopIteration` when there is
none). -/
def eval_ac_claims (M : KripkeModel) (graph label : List (String × List String)) :
    List ACClaim → Except LookupErr (List (String × Bool))
  | [] => .ok []
  | c :: rest =>
    match c.spec with
    | .temporal p q =>
      match eval_ac_claims M graph label rest with
      | .error e => .error e
      | .ok results => .ok ((c.id, check_G_implies_F graph label p q) :: results)
    | .epistemic op agent prop =>
      match M.worlds with
      | [] => .error .stopIteration
      | (w0, _) :: _ =>
        match if op == "B" then believes M agent prop w0
          else believes_believes M agent prop w0 with
        | .error e => .error e
        | .ok b =>
          match eval_ac_claims M graph label rest with
          | .error e => .error e
          | .ok results => .ok ((c.id, b) :: results)

/-- `evaluate_claims` from `assurance.py` (minus file I/O and schema
validation): build the Kripke model, fact graph and label map, then check
every claim. -/
def evaluate_claims (doc : AssuranceDoc) : Except LookupErr (List (String × Bool)) :=
  eval_ac_claims (build_model doc.belief_model) (build_graph doc.belief_model)
    (build_label doc.belief_model) doc.claims

/-! Embedding of the greedy budget selection of `prioritize_cmd` in
`src/safety_protocol.py`. -/

/-- One candidate of `prioritize_cmd`: `value` is `score / hours`, or
`float("inf")` (⊤) when `hours <= 0`. -/
structure PrioItem where
  value : WithTop ℚ
  path : String
  score : ℚ
  hours : ℚ
  experiment : String

/-- Candidate tuple as `prioritize_cmd` builds it from one risk note. -/
def mk_prio_item (path : String) (score hours : ℚ) (experiment : String) :
    PrioItem :=
  { value := if hours ≤ 0 then ⊤ else (score / hours : ℚ)
    path := path
    score := score
    hours := hours
    experiment := experiment }

/-- Greedy loop of `prioritize_cmd`: walk the ranked items, accepting an item
exactly when the running total of hours plus its hours stays within the
budget (items that do not fit are skipped, later cheaper items may still be
taken). -/
def greedy_select (budget : ℚ) : List PrioItem → ℚ → List PrioItem
  | [], _ => []
  | it :: rest, total =>
    if total + it.hours ≤ budget then
      it :: greedy_select budget rest (total + it.hours)
    else
      greedy_select budget rest total

/-- `prioritize_cmd` minus file I/O: rank by value descending
(`items.sort(reverse=True, key=lambda t: t[0])`, a stable sort) and select
greedily within the hour budget. -/
def prioritize (budget : ℚ) (items : List PrioItem) : List PrioItem :=
  greedy_select budget
    (items.mergeSort (fun a b => decide (b.value ≤ a.value))) 0

/-! Concrete instances used to exercise the embedded functions on the inputs
the specification review discusses. -/

/-- Evidence item of the worked example in the spec (§8): `lr_pos=3.0`,
`lr_neg=0.4`, `supports=True`, `weight=1`, no decay. -/
noncomputable def exampleEvidence : EvidenceItem :=
  { id := "e1"
    observed_at := 0
    supports := true
    lr_pos := 3
    lr_neg := 2 / 5
    weight := 1
    halflife_days := none }

/-- Claim of the worked example in the spec (§8): `prior=0.2`,
`threshold_conditional=0.4`, `threshold_blocking=0.6`, one evidence item. -/
noncomputable def exampleClaim : Claim :=
  { id := "c7"
    title := "example"
    prior := 1 / 5
    threshold_conditional := 2 / 5
    threshold_blocking := 3 / 5
    evidence := [exampleEvidence] }

/-- Result `evaluate_claim` produces for `exampleClaim` at `now = 0`. -/
noncomputable def exampleResult : ClaimResult :=
  { claim_id := "c7"
    title := "example"
    posterior := 3 / 7
    posture := .CONDITIONAL
    expired := false
    prior := 1 / 5
    prior_decay := 1
    prior_logodds_decayed := Real.log ((1 / 5) / (1 - 1 / 5))
    contributions :=
      [{ evidence_id := "e1"
         title := none
         supports := true
         lr_applied := 3
         weight := 1
         decay := 1
         delta_logodds := Real.log 3 * 1 * 1
         observed_at := 0 }] }

/-- Supporting evidence item with `lr_pos > 1` but `weight = 0`: its log-odds
contribution is `log(2) * 0 * 1 = 0`. -/
noncomputable def zeroWeightEvidence : EvidenceItem :=
  { id := "e0"
    observed_at := 0
    supports := true
    lr_pos := 2
    lr_neg := 1
    weight := 0
    halflife_days := none }

/-- Claim with prior `1/2` and no evidence: its posterior is exactly `1/2`. -/
noncomputable def halfPriorClaim : Claim :=
  { id := "c5"
    title := "half"
    prior := 1 / 2
    threshold_conditional := 2 / 5
    threshold_blocking := 3 / 5
    evidence := [] }

/-- Note with no claims at all. -/
def emptyNote : RiskNote :=
  { version := "1", id := "n0", title := "empty", claims := [] }

/-- Result of evaluating the empty note. -/
def emptyNoteResult : NoteEvaluationResult :=
  { note_id := "n0"
    title := "empty"
    evaluated_at := 0
    overall_posture := .ACCEPTABLE
    claims := []
    recommendations := []
    warnings := [] }

/-- Claim that is expired at `now = 0` (`valid_until` in the past), with prior
`1/2` and no evidence. -/
noncomputable def expiredClaim : Claim :=
  { id := "ce"
    title := "ce"
    prior := 1 / 2
    threshold_conditional := 2 / 5
    threshold_blocking := 3 / 5
    valid_until := some (-1)
    evidence := [] }

/-- Note whose only claim is expired. -/
noncomputable def expiredNote : RiskNote :=
  { version := "1", id := "n1", title := "all-expired", claims := [expiredClaim] }

/-- Claim whose prior is out of range, so `evaluate_claim` raises
`EvaluationError("Invalid prior probability: 2.0")` — a message that does not
mention the claim id. -/
noncomputable def badPriorClaimA : Claim :=
  { id := "c-a"
    title := "bad"
    prior := 2
    threshold_conditional := 2 / 5
    threshold_blocking := 3 / 5 }

/-- Same failing claim under a different id. -/
noncomputable def badPriorClaimB : Claim :=
  { id := "c-b"
    title := "bad"
    prior := 2
    threshold_conditional := 2 / 5
    threshold_blocking := 3 / 5 }

/-- Note containing only `badPriorClaimA`. -/
noncomputable def badNoteA : RiskNote :=
  { version := "1", id := "nA", title := "bad", claims := [badPriorClaimA] }

/-- Note containing only `badPriorClaimB`. -/
noncomputable def badNoteB : RiskNote :=
  { version := "1", id := "nB", title := "bad", claims := [badPriorClaimB] }

/-- Investigation producing expected delta `1/8` per hour on a posterior of
`1/2`. -/
noncomputable def tieInv : Investigation :=
  { id := "i1"
    title := "i"
    expected_lr_support := 3
    expected_lr_refute := 1
    cost_hours := 1
    probability_support := 1 / 2 }

/-- Claim id `"b"`, declared first in the tie note. -/
noncomputable def tieClaimB : Claim :=
  { id := "b"
    title := "b"
    prior := 1 / 2
    threshold_conditional := 2 / 5
    threshold_blocking := 3 / 5
    evidence := []
    investigations := [tieInv] }

/-- Claim id `"a"`, declared second in the tie note. -/
noncomputable def tieClaimA : Claim :=
  { id := "a"
    title := "a"
    prior := 1 / 2
    threshold_conditional := 2 / 5
    threshold_blocking := 3 / 5
    evidence := []
    investigations := [tieInv] }

/-- Note whose two claims produce recommendations with equal
`delta_per_hour`, the claim with the larger id declared first. -/
noncomputable def tieNote : RiskNote :=
  { version := "1", id := "n4", title := "tie", claims := [tieClaimB, tieClaimA] }

/-- Belief model with one world `w0` (fact `p`), one agent `alice` with a
reflexive edge at `w0`. -/
def cexBM : BeliefModel :=
  { logic := "K"
    agents := ["alice"]
    worlds := [("w0", ["p"])]
    edges := [⟨"alice", "w0", "w0"⟩] }

/-- Assurance document referencing an unknown agent (`ghost`) and an unknown
proposition (`ghostprop`) in both the epistemic and the temporal path. -/
def cexDoc : AssuranceDoc :=
  { systemName := "s"
    revision := "r"
    belief_model := cexBM
    claims :=
      [⟨"c1", .epistemic "B" "ghost" "p"⟩,
        ⟨"c2", .temporal "ghostprop" "p"⟩,
        ⟨"c3", .epistemic "B" "alice" "ghostprop"⟩] }

/-! Theorems.  General lemmas about the embedded functions first, then one
theorem per claim of the specification review. -/

theorem logodds_to_prob_eq (l : ℝ) :
    logodds_to_prob l = 1 / (1 + Real.exp (-l)) := by
  unfold logodds_to_prob
  split_ifs with h
  · rfl
  · rw [Real.exp_neg]
    have he := Real.exp_pos l
    field_simp
    ring

theorem one_add_exp_pos (x : ℝ) : 0 < 1 + Real.exp x := by
  have := Real.exp_pos x
  linarith

theorem logodds_to_prob_pos (l : ℝ) : 0 < logodds_to_prob l := by
  rw [logodds_to_prob_eq]
  exact div_pos one_pos (one_add_exp_pos (-l))

theorem logodds_to_prob_lt_one (l : ℝ) : logodds_to_prob l < 1 := by
  rw [logodds_to_prob_eq]
  rw [div_lt_one (one_add_exp_pos (-l))]
  have := Real.exp_pos (-l)
  linarith

theorem logodds_to_prob_strictMono {a b : ℝ} (h : a < b) :
    logodds_to_prob a < logodds_to_prob b := by
  rw [logodds_to_prob_eq, logodds_to_prob_eq]
  have hexp : Real.exp (-b) < Real.exp (-a) := Real.exp_lt_exp.mpr (by linarith)
  exact one_div_lt_one_div_of_lt (one_add_exp_pos (-b)) (by linarith)

theorem logodds_to_prob_zero : logodds_to_prob 0 = 1 / 2 := by
  rw [logodds_to_prob_eq]
  rw [neg_zero, Real.exp_zero]
  norm_num

theorem clamp_prob_eq_self {p : ℝ} (h1 : eps ≤ p) (h2 : p ≤ 1 - eps) :
    clamp_prob p = p := by
  unfold clamp_prob
  rw [max_eq_left h1, min_eq_left h2]

theorem prob_to_logodds_eq {p : ℝ} (h1 : 0 < p) (h2 : p < 1) (h3 : eps ≤ p)
    (h4 : p ≤ 1 - eps) :
    prob_to_logodds p = some (Real.log (p / (1 - p))) := by
  unfold prob_to_logodds
  rw [if_pos ⟨h1, h2⟩, clamp_prob_eq_self h3 h4]

theorem decay_prior_logodds_error {claim : Claim} {now : ℚ} {e : EvalErr}
    (h : decay_prior_logodds claim now = .error e) :
    e = .invalidPrior claim.prior := by
  unfold decay_prior_logodds at h
  split at h
  · cases h
    rfl
  · split at h
    · split at h <;> cases h
    · cases h

theorem apply_evidence_error {now : ℚ} {evs : List EvidenceItem} {init : ℝ}
    {e : EvalErr} (h : apply_evidence now evs init = .error e) :
    ∃ eid, e = .evidence eid := by
  induction evs generalizing init with
  | nil => cases h
  | cons ev rest ih =>
    rw [apply_evidence] at h
    split_ifs at h with hle
    · cases h
      exact ⟨ev.id, rfl⟩
    · split at h
      · cases h
        next heq => exact ih heq
      · cases h

theorem map_posture_invalidPosterior {post : ℝ} {claim : Claim}
    {expired : Bool} {p : ℝ}
    (h : map_posture post claim expired = .error (.invalidPosterior p)) :
    ¬ (0 ≤ post ∧ post ≤ 1) := by
  unfold map_posture at h
  split_ifs at h with h1 h2 h3 h4 h5 <;> first
    | exact h1
    | cases h

/-- Claim C10: for every finite log-odds value the stable logistic conversion
returns a probability strictly inside `(0, 1)`, and consequently the
invalid-posterior error branch of `_map_posture` is unreachable from
`evaluate_claim`. -/
theorem c10_logistic_in_unit_interval :
    (∀ l : ℝ, 0 < logodds_to_prob l ∧ logodds_to_prob l < 1) ∧
      ∀ (claim : Claim) (now : ℚ) (p : ℝ),
        evaluate_claim claim now ≠ .error (.invalidPosterior p) := by
  refine ⟨fun l => ⟨logodds_to_prob_pos l, logodds_to_prob_lt_one l⟩, ?_⟩
  intro claim now p h
  simp only [evaluate_claim] at h
  split at h
  · cases h
    next heq =>
      have := decay_prior_logodds_error heq
      simp_all
  · split at h
    · cases h
      next heq =>
        obtain ⟨eid, he⟩ := apply_evidence_error heq
        simp_all
    · split at h
      · cases h
        next l contribs heq =>
          have hrange := map_posture_invalidPosterior heq
          exact hrange ⟨le_of_lt (logodds_to_prob_pos _),
            le_of_lt (logodds_to_prob_lt_one _)⟩
      · cases h

theorem apply_evidence_ok_sum {now : ℚ} {evs : List EvidenceItem} {init l : ℝ}
    {cs : List EvidenceContribution}
    (h : apply_evidence now evs init = .ok (l, cs)) :
    l = init + (evs.map (ev_delta now)).sum := by
  induction evs generalizing init l cs with
  | nil =>
    cases h
    simp
  | cons ev rest ih =>
    rw [apply_evidence] at h
    by_cases hle : ev_lr ev ≤ 0
    · rw [if_pos hle] at h
      cases h
    · rw [if_neg hle] at h
      cases hae : apply_evidence now rest (init + ev_delta now ev) with
      | error e => rw [hae] at h; cases h
      | ok out =>
        obtain ⟨l2, cs2⟩ := out
        rw [hae] at h
        cases h
        have := ih hae
        simp only [List.map_cons, List.sum_cons]
        rw [this]
        ring

theorem apply_evidence_mem_pos {now : ℚ} {evs : List EvidenceItem} {init : ℝ}
    {out : ℝ × List EvidenceContribution}
    (h : apply_evidence now evs init = .ok out) :
    ∀ ev ∈ evs, 0 < ev_lr ev := by
  induction evs generalizing init out with
  | nil => intro ev hev; cases hev
  | cons ev0 rest ih =>
    rw [apply_evidence] at h
    by_cases hle : ev_lr ev0 ≤ 0
    · rw [if_pos hle] at h
      cases h
    · rw [if_neg hle] at h
      intro ev hev
      rcases List.mem_cons.mp hev with hev | hev
      · subst hev
        exact not_le.mp hle
      · cases hae : apply_evidence now rest (init + ev_delta now ev0) with
        | error e => rw [hae] at h; cases h
        | ok out2 => exact ih hae ev hev

theorem apply_evidence_total {now : ℚ} {evs : List EvidenceItem}
    (hpos : ∀ ev ∈ evs, 0 < ev_lr ev) (init : ℝ) :
    ∃ cs, apply_evidence now evs init =
      .ok (init + (evs.map (ev_delta now)).sum, cs) := by
  induction evs generalizing init with
  | nil => exact ⟨[], by simp [apply_evidence]⟩
  | cons ev rest ih =>
    obtain ⟨cs, hrec⟩ :=
      ih (fun x hx => hpos x (List.mem_cons_of_mem _ hx)) (init + ev_delta now ev)
    refine ⟨⟨ev.id, ev.title, ev.supports, ev_lr ev, ev.weight, ev_decay now ev,
      ev_delta now ev, ev.observed_at⟩ :: cs, ?_⟩
    rw [apply_evidence,
      if_neg (not_le.mpr (hpos ev (List.mem_cons_self _ _))), hrec]
    simp only [List.map_cons, List.sum_cons]
    rw [show init + ev_delta now ev + (rest.map (ev_delta now)).sum =
      init + (ev_delta now ev + (rest.map (ev_delta now)).sum) from by ring]

theorem sort_evidence_perm (evs : List EvidenceItem) :
    (sort_evidence evs).Perm evs :=
  List.mergeSort_perm evs _

theorem sort_evidence_sum (now : ℚ) (evs : List EvidenceItem) :
    ((sort_evidence evs).map (ev_delta now)).sum =
      (evs.map (ev_delta now)).sum :=
  ((sort_evidence_perm evs).map (ev_delta now)).sum_eq

theorem evaluate_claim_ok_parts {claim : Claim} {now : ℚ} {r : ClaimResult}
    (h : evaluate_claim claim now = .ok r) :
    ∃ pl pd,
      decay_prior_logodds claim now = .ok (pl, pd) ∧
      (∀ ev ∈ claim.evidence, 0 < ev_lr ev) ∧
      r.posterior = logodds_to_prob (pl + (claim.evidence.map (ev_delta now)).sum) ∧
      r.expired = claim_expired claim now ∧
      map_posture r.posterior claim (claim_expired claim now) = .ok r.posture := by
  simp only [evaluate_claim] at h
  split at h
  · cases h
  · next pl pd hd =>
    split at h
    · cases h
    · next l cs ha =>
      split at h
      · cases h
      · next posture hmp =>
        cases h
        have hsum : l = pl + (claim.evidence.map (ev_delta now)).sum := by
          rw [apply_evidence_ok_sum ha, sort_evidence_sum]
        refine ⟨pl, pd, hd, ?_, ?_, rfl, ?_⟩
        · intro ev hev
          exact apply_evidence_mem_pos ha ev
            ((sort_evidence_perm claim.evidence).mem_iff.mpr hev)
        · simp only [hsum]
        · simpa using hmp

theorem evaluate_claim_ok_mk {claim : Claim} {now : ℚ} {pl pd : ℝ}
    {posture : Posture}
    (hd : decay_prior_logodds claim now = .ok (pl, pd))
    (hpos : ∀ ev ∈ claim.evidence, 0 < ev_lr ev)
    (hmp : map_posture (logodds_to_prob (pl + (claim.evidence.map (ev_delta now)).sum))
      claim (claim_expired claim now) = .ok posture) :
    ∃ r, evaluate_claim claim now = .ok r ∧
      r.posterior = logodds_to_prob (pl + (claim.evidence.map (ev_delta now)).sum) ∧
      r.posture = posture ∧ r.expired = claim_expired claim now ∧
      r.claim_id = claim.id := by
  obtain ⟨cs, ha⟩ := @apply_evidence_total now (sort_evidence claim.evidence)
    (fun ev hev => hpos ev ((sort_evidence_perm claim.evidence).mem_iff.mp hev)) pl
  rw [sort_evidence_sum] at ha
  refine ⟨⟨claim.id, claim.title,
    logodds_to_prob (pl + (claim.evidence.map (ev_delta now)).sum),
    posture, claim_expired claim now, claim.prior, pd, pl, cs⟩,
    ?_, rfl, rfl, rfl, rfl⟩
  simp only [evaluate_claim, hd, ha, hmp]

theorem map_posture_cases {post : ℝ} {claim : Claim} {expired : Bool}
    {p : Posture} (h : map_posture post claim expired = .ok p) :
    (expired = true → p = .EXPIRED) ∧
    (expired = false →
      (claim.threshold_blocking ≤ post → p = .BLOCKING) ∧
      (claim.threshold_conditional ≤ post → post < claim.threshold_blocking →
        p = .CONDITIONAL) ∧
      (post < claim.threshold_conditional → p = .ACCEPTABLE)) := by
  unfold map_posture at h
  split_ifs at h with h1 h2 h3 h4 h5 <;> cases h
  · exact ⟨fun _ => rfl, fun hf => by rw [h2] at hf; cases hf⟩
  · refine ⟨fun ht => by rw [ht] at h2; exact absurd rfl h2, ?_⟩
    exact fun _ => ⟨fun _ => rfl, fun _ hb => absurd h4 (not_le.mpr hb), fun hc =>
      absurd h4 (not_le.mpr (lt_of_lt_of_le hc (le_trans (le_of_lt h3.2.1) (le_refl _))))⟩
  · refine ⟨fun ht => by rw [ht] at h2; exact absurd rfl h2, ?_⟩
    refine fun _ => ⟨fun hb => absurd hb h4, fun _ _ => rfl, fun hc => absurd h5 (not_le.mpr hc)⟩
  · refine ⟨fun ht => by rw [ht] at h2; exact absurd rfl h2, ?_⟩
    refine fun _ => ⟨fun hb => absurd hb h4, fun hc _ => absurd hc h5, fun _ => rfl⟩

theorem claim_expired_iff (claim : Claim) (now : ℚ) :
    claim_expired claim now = true ↔
      ∃ vu, claim.valid_until = some vu ∧ vu < now := by
  unfold claim_expired
  cases hvu : claim.valid_until with
  | none => simp
  | some vu => simp [hvu]

/-- Claim C3: for every quantitative claim, `evaluate_claim` classifies the
posture in priority order — expiration (`valid_until` set and `now` past it)
dominates and yields `EXPIRED`; otherwise `BLOCKING` when the posterior
reaches `threshold_blocking`, else `CONDITIONAL` when it reaches
`threshold_conditional`, else `ACCEPTABLE`. -/
theorem c3_posture_priority_order (claim : Claim) (now : ℚ) (r : ClaimResult)
    (h : evaluate_claim claim now = .ok r) :
    r.expired = claim_expired claim now ∧
    (claim_expired claim now = true ↔
      ∃ vu, claim.valid_until = some vu ∧ vu < now) ∧
    (r.expired = true → r.posture = .EXPIRED) ∧
    (r.expired = false →
      (claim.threshold_blocking ≤ r.posterior → r.posture = .BLOCKING) ∧
      (claim.threshold_conditional ≤ r.posterior →
        r.posterior < claim.threshold_blocking → r.posture = .CONDITIONAL) ∧
      (r.posterior < claim.threshold_conditional → r.posture = .ACCEPTABLE)) := by
  obtain ⟨pl, pd, hd, hpos, hpost, hexp, hmp⟩ := evaluate_claim_ok_parts h
  have hc := map_posture_cases hmp
  refine ⟨hexp, claim_expired_iff claim now, ?_, ?_⟩
  · intro he
    exact hc.1 (hexp ▸ he)
  · intro he
    exact hc.2 (hexp ▸ he)

theorem example_sum_logodds :
    Real.log ((1 / 5 : ℝ) / (1 - 1 / 5)) + Real.log 3 = Real.log (3 / 4) := by
  rw [show ((1 : ℝ) / 5) / (1 - 1 / 5) = 1 / 4 by norm_num]
  rw [← Real.log_mul (by norm_num) (by norm_num)]
  norm_num

theorem example_posterior_value :
    logodds_to_prob (Real.log ((3 : ℝ) / 4)) = 3 / 7 := by
  rw [logodds_to_prob_eq, Real.exp_neg, Real.exp_log (by norm_num)]
  norm_num

theorem example_map_posture :
    map_posture ((3 : ℝ) / 7) exampleClaim false = .ok .CONDITIONAL := by
  unfold map_posture
  rw [if_neg (not_not_intro ⟨by norm_num, by norm_num⟩)]
  rw [if_neg (by simp)]
  rw [if_neg (not_not_intro ⟨by norm_num [exampleClaim],
    by norm_num [exampleClaim], by norm_num [exampleClaim]⟩)]
  rw [if_neg (by norm_num [exampleClaim])]
  rw [if_pos (by norm_num [exampleClaim])]

theorem exampleClaim_eval : evaluate_claim exampleClaim 0 = .ok exampleResult := by
  have hd : decay_prior_logodds exampleClaim 0 =
      .ok (Real.log ((1 / 5 : ℝ) / (1 - 1 / 5)), 1) := by
    simp only [decay_prior_logodds, exampleClaim]
    rw [prob_to_logodds_eq (by norm_num) (by norm_num) (by norm_num [eps])
      (by norm_num [eps])]
  have hsort : sort_evidence exampleClaim.evidence = [exampleEvidence] := by
    simp [sort_evidence, exampleClaim]
  have hlr : ev_lr exampleEvidence = 3 := by
    simp [ev_lr, exampleEvidence]
  have hdecay : ev_decay 0 exampleEvidence = 1 := by
    simp [ev_decay, exampleEvidence, half_life_decay]
  have hdelta : ev_delta 0 exampleEvidence = Real.log 3 * 1 * 1 := by
    rw [ev_delta, hlr, hdecay]
    simp [exampleEvidence]
  have ha : apply_evidence 0 (sort_evidence exampleClaim.evidence)
      (Real.log ((1 / 5 : ℝ) / (1 - 1 / 5))) =
      .ok (Real.log ((1 / 5 : ℝ) / (1 - 1 / 5)) + Real.log 3 * 1 * 1,
        exampleResult.contributions) := by
    rw [hsort, apply_evidence, if_neg (by rw [hlr]; norm_num)]
    rw [show apply_evidence 0 []
        (Real.log ((1 / 5 : ℝ) / (1 - 1 / 5)) + ev_delta 0 exampleEvidence) =
      .ok (Real.log ((1 / 5 : ℝ) / (1 - 1 / 5)) + ev_delta 0 exampleEvidence, [])
      from rfl]
    rw [hdelta, hlr, hdecay]
    simp [exampleResult, exampleEvidence]
  have hexp : claim_expired exampleClaim 0 = false := by
    simp [claim_expired, exampleClaim]
  have hlp : logodds_to_prob
      (Real.log ((1 / 5 : ℝ) / (1 - 1 / 5)) + Real.log 3 * 1 * 1) = 3 / 7 := by
    rw [mul_one, mul_one, example_sum_logodds, example_posterior_value]
  simp only [evaluate_claim, hd, ha, hexp, hlp, example_map_posture]
  simp [exampleResult, exampleClaim]

/-- Claim C3 witness: the worked-example claim evaluates successfully, is not
expired, and its posterior `3/7` lies between the two thresholds, so the
priority order yields `CONDITIONAL`. -/
theorem c3_posture_priority_order_witness :
    exampleResult.posture = Posture.CONDITIONAL :=
  (((c3_posture_priority_order exampleClaim 0 exampleResult
      exampleClaim_eval).2.2.2 (by simp [exampleResult])).2.1
    (by norm_num [exampleResult, exampleClaim])
    (by norm_num [exampleResult, exampleClaim]))

/-- Claim C7: on the worked example (`prior=0.2`, one supporting evidence item
with `lr_pos=3`, `weight=1`, no decay, thresholds `0.4`/`0.6`),
`evaluate_claim` returns posterior `logistic(logit(0.2) + ln 3) = 3/7 ≈ 0.4286`
and posture `CONDITIONAL`. -/
theorem c7_worked_example :
    (evaluate_claim exampleClaim 0).toOption.map (fun r => (r.posterior, r.posture)) =
      some (3 / 7, Posture.CONDITIONAL) ∧
    logodds_to_prob (Real.log ((1 / 5 : ℝ) / (1 - 1 / 5)) + Real.log 3) =
      3 / 7 := by
  constructor
  · rw [exampleClaim_eval]
    rfl
  · rw [example_sum_logodds, example_posterior_value]

theorem half_life_decay_pos (a : ℝ) (hl : Option ℝ) : 0 < half_life_decay a hl := by
  cases hl with
  | none => simp [half_life_decay]
  | some h =>
    simp only [half_life_decay]
    split_ifs
    · norm_num
    · exact Real.rpow_pos_of_pos (by norm_num) _

theorem ev_decay_pos (now : ℚ) (ev : EvidenceItem) : 0 < ev_decay now ev :=
  half_life_decay_pos _ _

theorem ev_delta_pos {now : ℚ} {e : EvidenceItem} (hs : e.supports = true)
    (hlr : 1 < e.lr_pos) (hw : 0 < e.weight) : 0 < ev_delta now e := by
  unfold ev_delta
  have hl : ev_lr e = e.lr_pos := by simp [ev_lr, hs]
  rw [hl]
  exact mul_pos (mul_pos (Real.log_pos hlr) hw) (ev_decay_pos now e)

theorem map_posture_thresholds {post : ℝ} {claim : Claim} {p : Posture}
    (h : map_posture post claim false = .ok p) :
    0 < claim.threshold_conditional ∧
      claim.threshold_conditional < claim.threshold_blocking ∧
      claim.threshold_blocking < 1 := by
  unfold map_posture at h
  split_ifs at h <;> first | assumption | exact False.elim ‹False›


theorem map_posture_expired {post : ℝ} {claim : Claim} (h0 : 0 ≤ post)
    (h1 : post ≤ 1) : map_posture post claim true = .ok .EXPIRED := by
  unfold map_posture
  rw [if_neg (not_not_intro ⟨h0, h1⟩)]
  simp

theorem map_posture_total {post : ℝ} {claim : Claim} (expired : Bool)
    (h0 : 0 ≤ post) (h1 : post ≤ 1)
    (ht : 0 < claim.threshold_conditional ∧
      claim.threshold_conditional < claim.threshold_blocking ∧
      claim.threshold_blocking < 1) :
    ∃ p, map_posture post claim expired = .ok p := by
  unfold map_posture
  rw [if_neg (not_not_intro ⟨h0, h1⟩)]
  cases expired with
  | true => exact ⟨.EXPIRED, by simp⟩
  | false =>
    rw [if_neg (by simp), if_neg (not_not_intro ht)]
    split_ifs <;> exact ⟨_, rfl⟩

theorem decay_prior_congr_evidence (claim : Claim) (evs : List EvidenceItem)
    (now : ℚ) :
    decay_prior_logodds { claim with evidence := evs } now =
      decay_prior_logodds claim now := rfl

theorem claim_expired_congr_evidence (claim : Claim) (evs : List EvidenceItem)
    (now : ℚ) :
    claim_expired { claim with evidence := evs } now = claim_expired claim now := rfl

/-- Claim C5 (amended): adding one evidence item with `supports=true`,
`lr_pos > 1` and strictly positive `weight` to a claim that evaluates
successfully strictly increases the posterior returned by `evaluate_claim`,
holding `now` fixed. -/
theorem c5_supporting_evidence_increases_posterior (claim : Claim) (now : ℚ)
    (r : ClaimResult) (e : EvidenceItem)
    (h : evaluate_claim claim now = .ok r)
    (hs : e.supports = true) (hlr : 1 < e.lr_pos) (hw : 0 < e.weight) :
    ∃ r', evaluate_claim { claim with evidence := claim.evidence ++ [e] } now =
        .ok r' ∧ r.posterior < r'.posterior := by
  obtain ⟨pl, pd, hd, hpos, hpostEq, hexpEq, hmp⟩ := evaluate_claim_ok_parts h
  have hd' : decay_prior_logodds { claim with evidence := claim.evidence ++ [e] }
      now = .ok (pl, pd) := by
    rw [decay_prior_congr_evidence]
    exact hd
  have hpos' : ∀ ev ∈ claim.evidence ++ [e], 0 < ev_lr ev := by
    intro ev hev
    rcases List.mem_append.mp hev with hev | hev
    · exact hpos ev hev
    · rw [List.mem_singleton.mp hev]
      have : ev_lr e = e.lr_pos := by simp [ev_lr, hs]
      rw [this]
      linarith
  have hsum : ((claim.evidence ++ [e]).map (ev_delta now)).sum =
      (claim.evidence.map (ev_delta now)).sum + ev_delta now e := by
    rw [List.map_append, List.sum_append]
    simp
  have hlt : logodds_to_prob (pl + (claim.evidence.map (ev_delta now)).sum) <
      logodds_to_prob (pl + ((claim.evidence ++ [e]).map (ev_delta now)).sum) := by
    apply logodds_to_prob_strictMono
    rw [hsum]
    have := @ev_delta_pos now e hs hlr hw
    linarith
  have hval : ∃ p', map_posture
      (logodds_to_prob (pl + ((claim.evidence ++ [e]).map (ev_delta now)).sum))
      { claim with evidence := claim.evidence ++ [e] }
      (claim_expired { claim with evidence := claim.evidence ++ [e] } now) = .ok p' := by
    rw [claim_expired_congr_evidence]
    cases hexp : claim_expired claim now with
    | true =>
      exact ⟨.EXPIRED, map_posture_expired (le_of_lt (logodds_to_prob_pos _))
        (le_of_lt (logodds_to_prob_lt_one _))⟩
    | false =>
      rw [hexp] at hmp
      apply map_posture_total
      · exact le_of_lt (logodds_to_prob_pos _)
      · exact le_of_lt (logodds_to_prob_lt_one _)
      · exact map_posture_thresholds hmp
  obtain ⟨p', hmp'⟩ := hval
  obtain ⟨r', hr', hpost', _, _, _⟩ := evaluate_claim_ok_mk hd' hpos' hmp'
  refine ⟨r', hr', ?_⟩
  rw [hpostEq, hpost']
  exact hlt

/-- Claim C5 witness: adding the worked-example supporting item (`lr_pos=3`,
`weight=1`) to the worked-example claim strictly increases its posterior. -/
theorem c5_supporting_evidence_increases_posterior_witness :
    ∃ r', evaluate_claim
        { exampleClaim with evidence := exampleClaim.evidence ++ [exampleEvidence] } 0 =
        .ok r' ∧ exampleResult.posterior < r'.posterior :=
  c5_supporting_evidence_increases_posterior exampleClaim 0 exampleResult
    exampleEvidence exampleClaim_eval (by simp [exampleEvidence])
    (by norm_num [exampleEvidence]) (by norm_num [exampleEvidence])

theorem eval_posterior_eq (claim : Claim) (now : ℚ) (pl pd : ℝ)
    (hd : decay_prior_logodds claim now = .ok (pl, pd))
    (hpos : ∀ ev ∈ claim.evidence, 0 < ev_lr ev)
    (ht : 0 < claim.threshold_conditional ∧
      claim.threshold_conditional < claim.threshold_blocking ∧
      claim.threshold_blocking < 1) :
    (evaluate_claim claim now).toOption.map (fun r => r.posterior) =
      some (logodds_to_prob (pl + (claim.evidence.map (ev_delta now)).sum)) := by
  obtain ⟨p, hmp⟩ := map_posture_total (claim_expired claim now)
    (le_of_lt (logodds_to_prob_pos _)) (le_of_lt (logodds_to_prob_lt_one _)) ht
  obtain ⟨r, hr, hpost, _, _, _⟩ := evaluate_claim_ok_mk hd hpos hmp
  rw [hr]
  exact congrArg some hpost

theorem halfPrior_decay : decay_prior_logodds halfPriorClaim 0 = .ok (0, 1) := by
  simp only [decay_prior_logodds, halfPriorClaim]
  rw [prob_to_logodds_eq (by norm_num) (by norm_num) (by norm_num [eps])
    (by norm_num [eps])]
  rw [show ((1 : ℝ) / 2) / (1 - 1 / 2) = 1 by norm_num, Real.log_one]

/-- Claim C5 counterexample: an evidence item with `supports=true` and
`lr_pos > 1` but `weight = 0` leaves the posterior unchanged at `1/2`, so the
claim as stated (strict increase for every supporting item with `lr_pos > 1`)
fails. -/
theorem c5_counterexample_zero_weight :
    zeroWeightEvidence.supports = true ∧ 1 < zeroWeightEvidence.lr_pos ∧
    (evaluate_claim halfPriorClaim 0).toOption.map (fun r => r.posterior) =
      some (1 / 2) ∧
    (evaluate_claim
        { halfPriorClaim with
          evidence := halfPriorClaim.evidence ++ [zeroWeightEvidence] } 0).toOption.map
      (fun r => r.posterior) = some (1 / 2) := by
  have ht : 0 < halfPriorClaim.threshold_conditional ∧
      halfPriorClaim.threshold_conditional < halfPriorClaim.threshold_blocking ∧
      halfPriorClaim.threshold_blocking < 1 := by
    refine ⟨by norm_num [halfPriorClaim], by norm_num [halfPriorClaim],
      by norm_num [halfPriorClaim]⟩
  have hdelta0 : ev_delta 0 zeroWeightEvidence = 0 := by
    simp [ev_delta, zeroWeightEvidence]
  refine ⟨rfl, by norm_num [zeroWeightEvidence], ?_, ?_⟩
  · rw [eval_posterior_eq halfPriorClaim 0 0 1 halfPrior_decay
      (by intro ev hev; simp [halfPriorClaim] at hev) ht]
    rw [show halfPriorClaim.evidence = ([] : List EvidenceItem) from rfl]
    simp [logodds_to_prob_zero]
  · rw [eval_posterior_eq
      { halfPriorClaim with
        evidence := halfPriorClaim.evidence ++ [zeroWeightEvidence] } 0 0 1
      (by rw [decay_prior_congr_evidence]; exact halfPrior_decay)
      (by
        intro ev hev
        simp only [List.mem_append] at hev
        rcases hev with hev | hev
        · simp [halfPriorClaim] at hev
        · rw [List.mem_singleton.mp hev]
          simp [ev_lr, zeroWeightEvidence]) ht]
    rw [show ({ halfPriorClaim with
        evidence := halfPriorClaim.evidence ++ [zeroWeightEvidence] } : Claim).evidence =
      [zeroWeightEvidence] from rfl]
    simp [hdelta0, logodds_to_prob_zero]

theorem greedy_select_sum (budget : ℚ) (items : List PrioItem) (total : ℚ)
    (h : total ≤ budget) :
    total + ((greedy_select budget items total).map (fun it => it.hours)).sum ≤
      budget := by
  induction items generalizing total with
  | nil => simpa [greedy_select] using h
  | cons it rest ih =>
    rw [greedy_select]
    split_ifs with hfit
    · have := ih (total + it.hours) hfit
      simp only [List.map_cons, List.sum_cons]
      linarith
    · exact ih total h

/-- Claim C8: for every non-negative hour budget and every candidate list, the
greedy selection of `prioritize_cmd` accepts ranked items only while the
running total stays within the budget, so the summed hours of the selected set
never exceed the budget. -/
theorem c8_greedy_budget_respected (budget : ℚ) (items : List PrioItem)
    (h : 0 ≤ budget) :
    ((prioritize budget items).map (fun it => it.hours)).sum ≤ budget := by
  have := greedy_select_sum budget
    (items.mergeSort (fun a b => decide (b.value ≤ a.value))) 0 h
  unfold prioritize
  linarith

/-- Claim C8 witness: a concrete two-item run within a one-hour budget. -/
theorem c8_greedy_budget_respected_witness :
    ((prioritize 1 [mk_prio_item "a" 3 1 "x", mk_prio_item "b" 2 1 "y"]).map
      (fun it => it.hours)).sum ≤ 1 :=
  c8_greedy_budget_respected 1
    [mk_prio_item "a" 3 1 "x", mk_prio_item "b" 2 1 "y"] (by norm_num)

theorem posture_foldl_spec (rest : List Posture) (x : Posture) :
    (rest.foldl
        (fun b p => if posture_priority b < posture_priority p then p else b) x) ∈
      x :: rest ∧
    posture_priority x ≤ posture_priority (rest.foldl
      (fun b p => if posture_priority b < posture_priority p then p else b) x) ∧
    ∀ p ∈ rest, posture_priority p ≤ posture_priority (rest.foldl
      (fun b p => if posture_priority b < posture_priority p then p else b) x) := by
  induction rest generalizing x with
  | nil =>
    refine ⟨List.mem_singleton_self x, le_refl _, ?_⟩
    intro p hp
    cases hp
  | cons y rest ih =>
    simp only [List.foldl_cons]
    by_cases hxy : posture_priority x < posture_priority y
    · rw [if_pos hxy]
      obtain ⟨hmem, hx2, hall⟩ := ih y
      refine ⟨?_, ?_, ?_⟩
      · rcases List.mem_cons.mp hmem with hm | hm
        · rw [hm]; exact List.mem_cons_of_mem _ (List.mem_cons_self _ _)
        · exact List.mem_cons_of_mem _ (List.mem_cons_of_mem _ hm)
      · exact le_trans (le_of_lt hxy) hx2
      · intro p hp
        rcases List.mem_cons.mp hp with hp | hp
        · rw [hp]; exact hx2
        · exact hall p hp
    · rw [if_neg hxy]
      obtain ⟨hmem, hx2, hall⟩ := ih x
      refine ⟨?_, hx2, ?_⟩
      · rcases List.mem_cons.mp hmem with hm | hm
        · rw [hm]; exact List.mem_cons_self _ _
        · exact List.mem_cons_of_mem _ (List.mem_cons_of_mem _ hm)
      · intro p hp
        rcases List.mem_cons.mp hp with hp | hp
        · rw [hp]; exact le_trans (le_of_not_lt hxy) hx2
        · exact hall p hp

theorem posture_max_default {dflt : Posture} :
    posture_max [] dflt = dflt := rfl

theorem posture_max_spec (xs : List Posture) (dflt : Posture) (hne : xs ≠ []) :
    posture_max xs dflt ∈ xs ∧
      ∀ p ∈ xs, posture_priority p ≤ posture_priority (posture_max xs dflt) := by
  cases xs with
  | nil => exact absurd rfl hne
  | cons x rest =>
    obtain ⟨hmem, hx, hall⟩ := posture_foldl_spec rest x
    refine ⟨hmem, ?_⟩
    intro p hp
    rcases List.mem_cons.mp hp with hp | hp
    · rw [hp]; exact hx
    · exact hall p hp

theorem eval_note_claims_eq (now : ℚ) (claims : List Claim) :
    eval_note_claims now claims =
      (claims.filterMap (fun c => (evaluate_claim c now).toOption),
        claims.filterMap (fun c =>
          match evaluate_claim c now with
          | .error e => some e
          | .ok _ => none)) := by
  induction claims with
  | nil => rfl
  | cons c rest ih =>
    rw [eval_note_claims, ih]
    cases heval : evaluate_claim c now with
    | error e => simp [heval, List.filterMap_cons, Except.toOption]
    | ok r => simp [heval, List.filterMap_cons, Except.toOption]

theorem evaluate_note_ok {note : RiskNote} {now : ℚ}
    {res : NoteEvaluationResult} (h : evaluate_note note now = .ok res) :
    res.claims = (eval_note_claims now note.claims).1 ∧
    res.warnings = (eval_note_claims now note.claims).2 ∧
    res.overall_posture = overall_of (eval_note_claims now note.claims).1 ∧
    ∃ recs, build_recommendations now (eval_note_claims now note.claims).1
        note.claims = .ok recs ∧
      res.recommendations = recs.mergeSort rec_ge := by
  rcases hpair : eval_note_claims now note.claims with ⟨rs, ws⟩
  simp only [evaluate_note, hpair] at h
  cases hb : build_recommendations now rs note.claims with
  | error e => rw [hb] at h; cases h
  | ok recs =>
    rw [hb] at h
    cases h
    exact ⟨rfl, rfl, rfl, recs, rfl, rfl⟩

/-- Claim C1 (amended): the overall posture of a note is the most severe
posture (severity `BLOCKING > CONDITIONAL > ACCEPTABLE`) among its non-expired
successfully-evaluated claims, and it is `ACCEPTABLE` when there is no such
claim — in particular a note whose claims are all expired rolls up to
`ACCEPTABLE` (the `max` default), not `EXPIRED`. -/
theorem c1_note_rollup (note : RiskNote) (now : ℚ) (res : NoteEvaluationResult)
    (h : evaluate_note note now = .ok res) :
    ((res.claims.filter (fun r => ! r.expired)).map (fun r => r.posture) = [] →
      res.overall_posture = .ACCEPTABLE) ∧
    ((res.claims.filter (fun r => ! r.expired)).map (fun r => r.posture) ≠ [] →
      res.overall_posture ∈
        (res.claims.filter (fun r => ! r.expired)).map (fun r => r.posture) ∧
      ∀ p ∈ (res.claims.filter (fun r => ! r.expired)).map (fun r => r.posture),
        posture_priority p ≤ posture_priority res.overall_posture) := by
  obtain ⟨hc, hw, ho, _⟩ := evaluate_note_ok h
  rw [ho, ← hc]
  unfold overall_of
  constructor
  · intro hnil
    rw [hnil]
    rfl
  · intro hne
    exact posture_max_spec _ _ hne

/-- Claim C1 witness: the empty note evaluates successfully and rolls up to
`ACCEPTABLE`. -/
theorem c1_note_rollup_witness :
    ((emptyNoteResult.claims.filter (fun r => ! r.expired)).map
        (fun r => r.posture) = [] →
      emptyNoteResult.overall_posture = .ACCEPTABLE) ∧
    ((emptyNoteResult.claims.filter (fun r => ! r.expired)).map
        (fun r => r.posture) ≠ [] →
      emptyNoteResult.overall_posture ∈
        (emptyNoteResult.claims.filter (fun r => ! r.expired)).map
          (fun r => r.posture) ∧
      ∀ p ∈ (emptyNoteResult.claims.filter (fun r => ! r.expired)).map
          (fun r => r.posture),
        posture_priority p ≤ posture_priority emptyNoteResult.overall_posture) :=
  c1_note_rollup emptyNote 0 emptyNoteResult (by
    simp only [evaluate_note, emptyNote, eval_note_claims, build_recommendations]
    simp [emptyNoteResult, overall_of, posture_max])

/-- Claim C6 (amended): when `evaluate_claim` raises an `EvaluationError` for
a claim, `evaluate_note` skips that claim and continues: the result's claims
list holds exactly the successfully-evaluated claims in order, one warning
carrying the error is printed per failed claim in order, and the rollup ranges
over the successful results only.  The warning, however, is just the error
value — for errors raised as `EvaluationError` (e.g. an invalid prior) it does
not carry the failed claim's id. -/
theorem c6_skip_and_warn (note : RiskNote) (now : ℚ)
    (res : NoteEvaluationResult) (h : evaluate_note note now = .ok res) :
    res.claims = note.claims.filterMap (fun c => (evaluate_claim c now).toOption) ∧
    res.warnings = note.claims.filterMap (fun c =>
      match evaluate_claim c now with
      | .error e => some e
      | .ok _ => none) ∧
    res.overall_posture = overall_of res.claims := by
  obtain ⟨hc, hw, ho, _⟩ := evaluate_note_ok h
  rw [eval_note_claims_eq] at hc hw ho
  exact ⟨hc, hw, by rw [ho, hc]⟩

/-- Claim C6 witness: the empty note, where no claim fails and no warning is
emitted. -/
theorem c6_skip_and_warn_witness :
    emptyNoteResult.claims =
      emptyNote.claims.filterMap (fun c => (evaluate_claim c 0).toOption) ∧
    emptyNoteResult.warnings = emptyNote.claims.filterMap (fun c =>
      match evaluate_claim c 0 with
      | .error e => some e
      | .ok _ => none) ∧
    emptyNoteResult.overall_posture = overall_of emptyNoteResult.claims :=
  c6_skip_and_warn emptyNote 0 emptyNoteResult (by
    simp only [evaluate_note, emptyNote, eval_note_claims, build_recommendations]
    simp [emptyNoteResult, overall_of, posture_max])

/-- Claim C4 (amended): the recommendations returned by `evaluate_note` are
sorted by `delta_per_hour` in descending order; recommendations with equal
`delta_per_hour` keep the order in which they were generated (the note's claim
declaration order, then each claim's investigation order) — there is no
claim-id or investigation-id tie-break. -/
theorem c4_recommendations_sorted_desc (note : RiskNote) (now : ℚ)
    (res : NoteEvaluationResult) (h : evaluate_note note now = .ok res) :
    List.Pairwise (fun a b => b.delta_per_hour ≤ a.delta_per_hour)
      res.recommendations := by
  obtain ⟨_, _, _, recs, _, hsort⟩ := evaluate_note_ok h
  rw [hsort]
  have hs := @List.sorted_mergeSort Recommendation rec_ge
    (fun a b c hab hbc => by
      simp only [rec_ge, decide_eq_true_eq] at *
      exact le_trans hbc hab)
    (fun a b => by
      simp only [rec_ge, Bool.or_eq_true, decide_eq_true_eq]
      exact le_total b.delta_per_hour a.delta_per_hour)
    recs
  exact hs.imp (fun hab => by
    simp only [rec_ge, decide_eq_true_eq] at hab
    exact hab)

/-- Claim C4 witness: the empty note's (empty) recommendation list is sorted
descending. -/
theorem c4_recommendations_sorted_desc_witness :
    List.Pairwise (fun a b => b.delta_per_hour ≤ a.delta_per_hour)
      emptyNoteResult.recommendations :=
  c4_recommendations_sorted_desc emptyNote 0 emptyNoteResult (by
    simp only [evaluate_note, emptyNote, eval_note_claims, build_recommendations]
    simp [emptyNoteResult, overall_of, posture_max])

theorem expiredClaim_decay : decay_prior_logodds expiredClaim 0 = .ok (0, 1) := by
  simp only [decay_prior_logodds, expiredClaim]
  rw [prob_to_logodds_eq (by norm_num) (by norm_num) (by norm_num [eps])
    (by norm_num [eps])]
  rw [show ((1 : ℝ) / 2) / (1 - 1 / 2) = 1 by norm_num, Real.log_one]

theorem expiredClaim_expired : claim_expired expiredClaim 0 = true := by
  simp only [claim_expired, expiredClaim]
  norm_num

/-- Claim C1 counterexample: a note with one claim, expired at evaluation
time, rolls up to `ACCEPTABLE` (the Python `max` default after filtering out
expired results), not `EXPIRED` as the claim states. -/
theorem c1_counterexample_all_expired_not_EXPIRED :
    expiredNote.claims ≠ [] ∧
    (evaluate_note expiredNote 0).toOption.map
      (fun res => (res.overall_posture, res.claims.map (fun r => r.expired))) =
      some (Posture.ACCEPTABLE, [true]) := by
  have hmpE : map_posture
      (logodds_to_prob (0 + (expiredClaim.evidence.map (ev_delta 0)).sum))
      expiredClaim (claim_expired expiredClaim 0) = .ok .EXPIRED := by
    rw [expiredClaim_expired]
    exact map_posture_expired (le_of_lt (logodds_to_prob_pos _))
      (le_of_lt (logodds_to_prob_lt_one _))
  obtain ⟨rE, hrE, hpostE, hpostureE, hexpRE, hidE⟩ :=
    evaluate_claim_ok_mk expiredClaim_decay
      (by intro ev hev; simp [expiredClaim] at hev) hmpE
  have hexpT : rE.expired = true := by rw [hexpRE, expiredClaim_expired]
  have hclaims : eval_note_claims 0 [expiredClaim] = ([rE], []) := by
    simp only [eval_note_claims, hrE]
  have hb : build_recommendations 0 [rE] [expiredClaim] = .ok [] := by
    rw [build_recommendations, if_pos (by simp [expiredClaim])]
    rfl
  have hnote : evaluate_note expiredNote 0 = .ok
      { note_id := "n1"
        title := "all-expired"
        evaluated_at := 0
        overall_posture := overall_of [rE]
        claims := [rE]
        recommendations := List.mergeSort [] rec_ge
        warnings := [] } := by
    simp only [evaluate_note, expiredNote, hclaims, hb]
  refine ⟨by simp [expiredNote], ?_⟩
  rw [hnote]
  have hov : overall_of [rE] = Posture.ACCEPTABLE := by
    simp [overall_of, hexpT, posture_max]
  show some (overall_of [rE], [rE.expired]) = some (Posture.ACCEPTABLE, [true])
  rw [hov, hexpT]

theorem bad_prior_eval (c : Claim) (hp : c.prior = 2) (now : ℚ) :
    evaluate_claim c now = .error (.invalidPrior 2) := by
  simp only [evaluate_claim, decay_prior_logodds, hp]
  rw [show prob_to_logodds (2 : ℝ) = none from by
    unfold prob_to_logodds
    rw [if_neg (by norm_num)]]

/-- Claim C6 counterexample: two notes whose single failing claims differ only
in their id produce identical warnings (`Invalid prior probability: 2.0`), so
the emitted warning does not identify the failed claim's id. -/
theorem c6_counterexample_warning_lacks_claim_id :
    badPriorClaimA.id ≠ badPriorClaimB.id ∧
    (evaluate_note badNoteA 0).toOption.map (fun res => res.warnings) =
      some [.invalidPrior 2] ∧
    (evaluate_note badNoteB 0).toOption.map (fun res => res.warnings) =
      some [.invalidPrior 2] := by
  have hA := bad_prior_eval badPriorClaimA (by simp [badPriorClaimA]) 0
  have hB := bad_prior_eval badPriorClaimB (by simp [badPriorClaimB]) 0
  have hclaimsA : eval_note_claims 0 [badPriorClaimA] =
      ([], [.invalidPrior 2]) := by
    simp only [eval_note_claims, hA]
  have hclaimsB : eval_note_claims 0 [badPriorClaimB] =
      ([], [.invalidPrior 2]) := by
    simp only [eval_note_claims, hB]
  have hbA : build_recommendations 0 [] [badPriorClaimA] = .ok [] := by
    rw [build_recommendations, if_pos (by simp [badPriorClaimA])]
    rfl
  have hbB : build_recommendations 0 [] [badPriorClaimB] = .ok [] := by
    rw [build_recommendations, if_pos (by simp [badPriorClaimB])]
    rfl
  refine ⟨by simp [badPriorClaimA, badPriorClaimB], ?_, ?_⟩
  · simp only [evaluate_note, badNoteA, hclaimsA, hbA]
    rfl
  · simp only [evaluate_note, badNoteB, hclaimsB, hbB]
    rfl

theorem support_posterior_value : logodds_to_prob (0 + Real.log 3) = 3 / 4 := by
  rw [zero_add, logodds_to_prob_eq, Real.exp_neg, Real.exp_log (by norm_num)]
  norm_num

theorem refute_posterior_value : logodds_to_prob (0 + Real.log 1) = 1 / 2 := by
  rw [Real.log_one, add_zero, logodds_to_prob_zero]

theorem prob_to_logodds_half : prob_to_logodds ((1 : ℝ) / 2) = some 0 := by
  rw [prob_to_logodds_eq (by norm_num) (by norm_num) (by norm_num [eps])
    (by norm_num [eps])]
  rw [show ((1 : ℝ) / 2) / (1 - 1 / 2) = 1 by norm_num, Real.log_one]

theorem tie_recs (c : Claim) (cr : ClaimResult) (hpost : cr.posterior = 1 / 2) :
    recs_for_claim c cr 0 [tieInv] =
      .ok [⟨"i1", "i", c.id, c.title, 1 / 8, 1, 1 / 8, 1 / 2⟩] := by
  rw [recs_for_claim]
  rw [if_neg (by norm_num [tieInv])]
  rw [if_neg (by norm_num [tieInv])]
  simp only [tieInv, support_posterior_value, refute_posterior_value, hpost]
  rw [show (1 : ℝ) / 2 * (3 / 4 - 1 / 2) + (1 - 1 / 2) * (1 / 2 - 1 / 2) = 1 / 8
    from by norm_num]
  rw [if_neg (by rw [abs_of_pos (by norm_num)]; norm_num)]
  rw [show recs_for_claim c cr 0 [] = .ok [] from rfl]
  rw [abs_of_pos (by norm_num)]
  norm_num

theorem tie_find_B (rB rA : ClaimResult) (hidB : rB.claim_id = "b") :
    List.find? (fun cr => cr.claim_id == tieClaimB.id) [rB, rA] = some rB := by
  simp [List.find?, hidB, tieClaimB]

theorem tie_find_A (rB rA : ClaimResult) (hidB : rB.claim_id = "b")
    (hidA : rA.claim_id = "a") :
    List.find? (fun cr => cr.claim_id == tieClaimA.id) [rB, rA] = some rA := by
  simp [List.find?, hidB, hidA, tieClaimA]

/-- Claim C4 counterexample: in a note declaring claim `"b"` before claim
`"a"`, both producing recommendations with the same `delta_per_hour = 1/8`,
the returned order is `["b", "a"]` — the stable sort keeps generation order
and does not break ties by claim id. -/
theorem c4_counterexample_tie_keeps_declaration_order :
    ("a" : String) < "b" ∧
    (evaluate_note tieNote 0).toOption.map
      (fun res => res.recommendations.map (fun r => (r.claim_id, r.delta_per_hour))) =
      some [("b", 1 / 8), ("a", 1 / 8)] := by
  have hthr : 0 < tieClaimB.threshold_conditional ∧
      tieClaimB.threshold_conditional < tieClaimB.threshold_blocking ∧
      tieClaimB.threshold_blocking < 1 := by
    exact ⟨by norm_num [tieClaimB], by norm_num [tieClaimB], by norm_num [tieClaimB]⟩
  have hthrA : 0 < tieClaimA.threshold_conditional ∧
      tieClaimA.threshold_conditional < tieClaimA.threshold_blocking ∧
      tieClaimA.threshold_blocking < 1 := by
    exact ⟨by norm_num [tieClaimA], by norm_num [tieClaimA], by norm_num [tieClaimA]⟩
  have hdB : decay_prior_logodds tieClaimB 0 = .ok (0, 1) := by
    simp only [decay_prior_logodds, tieClaimB]
    rw [prob_to_logodds_eq (by norm_num) (by norm_num) (by norm_num [eps])
      (by norm_num [eps])]
    rw [show ((1 : ℝ) / 2) / (1 - 1 / 2) = 1 by norm_num, Real.log_one]
  have hdA : decay_prior_logodds tieClaimA 0 = .ok (0, 1) := by
    simp only [decay_prior_logodds, tieClaimA]
    rw [prob_to_logodds_eq (by norm_num) (by norm_num) (by norm_num [eps])
      (by norm_num [eps])]
    rw [show ((1 : ℝ) / 2) / (1 - 1 / 2) = 1 by norm_num, Real.log_one]
  obtain ⟨pB, hmpB⟩ := map_posture_total
    (claim_expired tieClaimB 0) (le_of_lt (logodds_to_prob_pos
      (0 + (tieClaimB.evidence.map (ev_delta 0)).sum)))
    (le_of_lt (logodds_to_prob_lt_one _)) hthr
  obtain ⟨pA, hmpA⟩ := map_posture_total
    (claim_expired tieClaimA 0) (le_of_lt (logodds_to_prob_pos
      (0 + (tieClaimA.evidence.map (ev_delta 0)).sum)))
    (le_of_lt (logodds_to_prob_lt_one _)) hthrA
  obtain ⟨rB, hrB, hpostB, _, _, hidB⟩ := evaluate_claim_ok_mk hdB
    (by intro ev hev; simp [tieClaimB] at hev) hmpB
  obtain ⟨rA, hrA, hpostA, _, _, hidA⟩ := evaluate_claim_ok_mk hdA
    (by intro ev hev; simp [tieClaimA] at hev) hmpA
  have hpB2 : rB.posterior = 1 / 2 := by
    rw [hpostB]
    rw [show tieClaimB.evidence = ([] : List EvidenceItem) from rfl]
    simp [logodds_to_prob_zero]
  have hpA2 : rA.posterior = 1 / 2 := by
    rw [hpostA]
    rw [show tieClaimA.evidence = ([] : List EvidenceItem) from rfl]
    simp [logodds_to_prob_zero]
  have hidB2 : rB.claim_id = "b" := by rw [hidB]; rfl
  have hidA2 : rA.claim_id = "a" := by rw [hidA]; rfl
  have hclaims : eval_note_claims 0 [tieClaimB, tieClaimA] = ([rB, rA], []) := by
    simp only [eval_note_claims, hrB, hrA]
  have hbrec : build_recommendations 0 [rB, rA] [tieClaimB, tieClaimA] =
      .ok [⟨"i1", "i", "b", "b", 1 / 8, 1, 1 / 8, 1 / 2⟩,
        ⟨"i1", "i", "a", "a", 1 / 8, 1, 1 / 8, 1 / 2⟩] := by
    have hplB : prob_to_logodds rB.posterior = some 0 := by
      rw [hpB2]; exact prob_to_logodds_half
    have hplA : prob_to_logodds rA.posterior = some 0 := by
      rw [hpA2]; exact prob_to_logodds_half
    rw [build_recommendations]
    rw [if_neg (by simp [tieClaimB, tieInv])]
    simp only [tie_find_B rB rA hidB2, hplB,
      show tieClaimB.investigations = [tieInv] from rfl,
      tie_recs tieClaimB rB hpB2]
    rw [build_recommendations]
    rw [if_neg (by simp [tieClaimA, tieInv])]
    simp only [tie_find_A rB rA hidB2 hidA2, hplA,
      show tieClaimA.investigations = [tieInv] from rfl,
      tie_recs tieClaimA rA hpA2]
    rw [show build_recommendations 0 [rB, rA] ([] : List Claim) =
      .ok ([] : List Recommendation) from rfl]
    simp [tieClaimB, tieClaimA]
  have hsorted : List.mergeSort
      [(⟨"i1", "i", "b", "b", 1 / 8, 1, 1 / 8, 1 / 2⟩ : Recommendation),
        ⟨"i1", "i", "a", "a", 1 / 8, 1, 1 / 8, 1 / 2⟩] rec_ge =
      [⟨"i1", "i", "b", "b", 1 / 8, 1, 1 / 8, 1 / 2⟩,
        ⟨"i1", "i", "a", "a", 1 / 8, 1, 1 / 8, 1 / 2⟩] := by
    apply List.mergeSort_of_sorted
    refine List.pairwise_cons.mpr ⟨?_, List.pairwise_singleton _ _⟩
    intro r hr
    rw [List.mem_singleton.mp hr]
    exact decide_eq_true (by norm_num)
  have hnote : evaluate_note tieNote 0 = .ok
      { note_id := "n4"
        title := "tie"
        evaluated_at := 0
        overall_posture := overall_of [rB, rA]
        claims := [rB, rA]
        recommendations := List.mergeSort
          [⟨"i1", "i", "b", "b", 1 / 8, 1, 1 / 8, 1 / 2⟩,
            ⟨"i1", "i", "a", "a", 1 / 8, 1, 1 / 8, 1 / 2⟩] rec_ge
        warnings := [] } := by
    simp only [evaluate_note, tieNote, hclaims, hbrec]
  refine ⟨by rw [String.lt_iff_toList_lt]; decide, ?_⟩
  rw [hnote]
  show some (List.map _ (List.mergeSort _ rec_ge)) = _
  rw [hsorted]
  rfl

theorem believes_loop_total (M : KripkeModel) (prop : String)
    (vs : List String)
    (h : ∀ v ∈ vs, ∃ wd, alookup M.worlds v = some wd) :
    ∃ b, believes_loop M prop vs = .ok b := by
  induction vs with
  | nil => exact ⟨true, rfl⟩
  | cons v rest ih =>
    obtain ⟨wd, hwd⟩ := h v (List.mem_cons_self _ _)
    obtain ⟨b, hb⟩ := ih (fun x hx => h x (List.mem_cons_of_mem _ hx))
    rw [believes_loop, holds, hwd]
    by_cases hp : prop ∈ wd.facts
    · exact ⟨b, by simp [hp, hb]⟩
    · exact ⟨false, by simp [hp]⟩

theorem believes_loop_all_false (M : KripkeModel) (prop : String)
    (v : String) (rest : List String) (wd : World)
    (hwd : alookup M.worlds v = some wd) (hp : prop ∉ wd.facts) :
    believes_loop M prop (v :: rest) = .ok false := by
  rw [believes_loop, holds, hwd]
  simp [hp]

/-- Claim C2 (amended): an epistemic claim referencing an unknown agent is
evaluated as vacuously true (the agent's missing relation defaults to no
successors), an epistemic claim whose proposition occurs in no successor world
is evaluated as false, and a temporal claim whose antecedent proposition
labels no node is vacuously true — none of these raises an error.  Only
dereferencing a successor world id absent from the world map raises a hard
error (`KeyError`). -/
theorem c2_unknown_refs_default_not_error (M : KripkeModel)
    (agent prop w : String) (graph label : List (String × List String))
    (p q : String) :
    (alookup M.rel agent = none → believes M agent prop w = .ok true) ∧
    ((∀ v ∈ successors M agent w, ∃ wd, alookup M.worlds v = some wd) →
      ∃ b, believes M agent prop w = .ok b) ∧
    (∀ v rest wd, successors M agent w = v :: rest →
      alookup M.worlds v = some wd → prop ∉ wd.facts →
      believes M agent prop w = .ok false) ∧
    (∀ v rest, successors M agent w = v :: rest → alookup M.worlds v = none →
      believes M agent prop w = .error (.keyError v)) ∧
    ((∀ n, p ∉ label_of label n) → check_G_implies_F graph label p q = true) := by
  refine ⟨?_, ?_, ?_, ?_, ?_⟩
  · intro h
    unfold believes successors
    rw [h]
    rfl
  · intro h
    exact believes_loop_total M prop _ h
  · intro v rest wd hsucc hwd hp
    unfold believes
    rw [hsucc]
    exact believes_loop_all_false M prop v rest wd hwd hp
  · intro v rest hsucc hnone
    unfold believes
    rw [hsucc, believes_loop, holds, hnone]
  · intro h
    unfold check_G_implies_F
    rw [List.all_eq_true]
    intro node hnode
    rw [if_neg (h node)]

/-- Claim C2 counterexample: under `evaluate_claims`, an epistemic claim with
the unknown agent `ghost` returns `true` (vacuous), a temporal claim with the
unknown proposition `ghostprop` returns `true` (vacuous), and an epistemic
claim with an unknown proposition returns `false` — all silently, with no
error propagated to the caller. -/
theorem c2_counterexample_silent_defaults :
    ("ghost" ∉ cexBM.agents) ∧
    (∀ wp ∈ cexBM.worlds, "ghostprop" ∉ wp.2) ∧
    evaluate_claims cexDoc = .ok [("c1", true), ("c2", true), ("c3", false)] := by
  refine ⟨by decide, by decide, ?_⟩
  rfl

theorem bfs_push_visited_mono {vs visited queue : List String} {x : String}
    (h : x ∈ visited) : x ∈ (bfs_push vs visited queue).1 := by
  induction vs generalizing visited queue with
  | nil => exact h
  | cons v rest ih =>
    rw [bfs_push]
    split_ifs with hv
    · exact ih h
    · exact ih (List.mem_append_left _ h)

theorem bfs_push_queue_mono {vs visited queue : List String} {x : String}
    (h : x ∈ queue) : x ∈ (bfs_push vs visited queue).2 := by
  induction vs generalizing visited queue with
  | nil => exact h
  | cons v rest ih =>
    rw [bfs_push]
    split_ifs with hv
    · exact ih h
    · exact ih (List.mem_append_left _ h)

theorem bfs_push_visited_cases {vs visited queue : List String} {x : String}
    (h : x ∈ (bfs_push vs visited queue).1) : x ∈ visited ∨ x ∈ vs := by
  induction vs generalizing visited queue with
  | nil => exact Or.inl h
  | cons v rest ih =>
    rw [bfs_push] at h
    split_ifs at h with hv
    · rcases ih h with h | h
      · exact Or.inl h
      · exact Or.inr (List.mem_cons_of_mem _ h)
    · rcases ih h with h | h
      · rcases List.mem_append.mp h with h | h
        · exact Or.inl h
        · exact Or.inr (by rw [List.mem_singleton.mp h]; exact List.mem_cons_self _ _)
      · exact Or.inr (List.mem_cons_of_mem _ h)

theorem bfs_push_queue_cases {vs visited queue : List String} {x : String}
    (h : x ∈ (bfs_push vs visited queue).2) : x ∈ queue ∨ x ∈ vs := by
  induction vs generalizing visited queue with
  | nil => exact Or.inl h
  | cons v rest ih =>
    rw [bfs_push] at h
    split_ifs at h with hv
    · rcases ih h with h | h
      · exact Or.inl h
      · exact Or.inr (List.mem_cons_of_mem _ h)
    · rcases ih h with h | h
      · rcases List.mem_append.mp h with h | h
        · exact Or.inl h
        · exact Or.inr (by rw [List.mem_singleton.mp h]; exact List.mem_cons_self _ _)
      · exact Or.inr (List.mem_cons_of_mem _ h)

theorem bfs_push_vs_visited {vs visited queue : List String} :
    ∀ v ∈ vs, v ∈ (bfs_push vs visited queue).1 := by
  induction vs generalizing visited queue with
  | nil => intro v hv; cases hv
  | cons v0 rest ih =>
    intro v hv
    rw [bfs_push]
    split_ifs with hv0
    · rcases List.mem_cons.mp hv with hv | hv
      · rw [hv]; exact bfs_push_visited_mono hv0
      · exact ih v hv
    · rcases List.mem_cons.mp hv with hv | hv
      · rw [hv]
        exact bfs_push_visited_mono (List.mem_append_right _ (List.mem_singleton_self _))
      · exact ih v hv

theorem bfs_push_queue_closed {vs visited queue : List String}
    (hq : ∀ x ∈ queue, x ∈ visited) :
    ∀ x ∈ (bfs_push vs visited queue).2, x ∈ (bfs_push vs visited queue).1 := by
  induction vs generalizing visited queue with
  | nil => exact hq
  | cons v rest ih =>
    rw [bfs_push]
    split_ifs with hv
    · exact ih hq
    · refine ih ?_
      intro x hx
      rcases List.mem_append.mp hx with hx | hx
      · exact List.mem_append_left _ (hq x hx)
      · exact List.mem_append_right _ hx

theorem bfs_push_new_in_queue {vs visited queue : List String} {x : String}
    (h : x ∈ (bfs_push vs visited queue).1) :
    x ∈ visited ∨ x ∈ (bfs_push vs visited queue).2 := by
  induction vs generalizing visited queue with
  | nil => exact Or.inl h
  | cons v rest ih =>
    rw [bfs_push] at h ⊢
    split_ifs at h ⊢ with hv
    · exact ih h
    · rcases ih h with h | h
      · rcases List.mem_append.mp h with h | h
        · exact Or.inl h
        · exact Or.inr (bfs_push_queue_mono
            (List.mem_append_right _ (by rw [List.mem_singleton.mp h]; exact List.mem_singleton_self _)))
      · exact Or.inr h

theorem reach_closed {graph : List (String × List String)}
    {visited : List String}
    (hclosed : ∀ v ∈ visited, ∀ w ∈ adj graph v, w ∈ visited)
    {v w : String} (hv : v ∈ visited) (hr : Reach graph v w) : w ∈ visited := by
  induction hr with
  | refl => exact hv
  | tail hab hstep ih => exact hclosed _ ih _ hstep

theorem bfs_reach_false_no_q (graph label : List (String × List String))
    (q : String) :
    ∀ visited queue, (∀ x ∈ queue, x ∈ visited) →
      (∀ v ∈ visited, v ∈ queue ∨
        ((∀ w ∈ adj graph v, w ∈ visited) ∧ q ∉ label_of label v)) →
      bfs_reach graph label q visited queue = false →
      ∀ v ∈ visited, ∀ w, Reach graph v w → q ∉ label_of label w := by
  intro visited queue
  induction visited, queue using bfs_reach.induct graph label q with
  | case1 visited =>
    intro _ hb _
    have hclosed : ∀ v ∈ visited, ∀ w ∈ adj graph v, w ∈ visited := by
      intro v hv
      rcases hb v hv with h | h
      · cases h
      · exact h.1
    have hqfree : ∀ v ∈ visited, q ∉ label_of label v := by
      intro v hv
      rcases hb v hv with h | h
      · cases h
      · exact h.2
    intro v hv w hr
    exact hqfree w (reach_closed hclosed hv hr)
  | case2 visited u rest hq =>
    intro _ _ hf
    rw [bfs_reach, if_pos hq] at hf
    cases hf
  | case3 visited u rest hq ih =>
    intro ha hb hf
    rw [bfs_reach, if_neg hq] at hf
    have hu : u ∈ visited := ha u (List.mem_cons_self _ _)
    have ha' : ∀ x ∈ (bfs_push (adj graph u) visited rest).2,
        x ∈ (bfs_push (adj graph u) visited rest).1 := by
      apply bfs_push_queue_closed
      intro x hx
      exact ha x (List.mem_cons_of_mem _ hx)
    have hb' : ∀ v ∈ (bfs_push (adj graph u) visited rest).1,
        v ∈ (bfs_push (adj graph u) visited rest).2 ∨
        ((∀ w ∈ adj graph v, w ∈ (bfs_push (adj graph u) visited rest).1) ∧
          q ∉ label_of label v) := by
      intro v hv
      rcases bfs_push_visited_cases hv with hvold | hvadj
      · rcases hb v hvold with hvq | hvcl
        · rcases List.mem_cons.mp hvq with hvu | hvrest
          · subst hvu
            refine Or.inr ⟨?_, hq⟩
            intro w hw
            exact bfs_push_vs_visited w hw
          · exact Or.inl (bfs_push_queue_mono hvrest)
        · refine Or.inr ⟨?_, hvcl.2⟩
          intro w hw
          exact bfs_push_visited_mono (hvcl.1 w hw)
      · rcases bfs_push_new_in_queue hv with hvold | hvq
        · rcases hb v hvold with hvq | hvcl
          · rcases List.mem_cons.mp hvq with hvu | hvrest
            · subst hvu
              refine Or.inr ⟨?_, hq⟩
              intro w hw
              exact bfs_push_vs_visited w hw
            · exact Or.inl (bfs_push_queue_mono hvrest)
          · refine Or.inr ⟨?_, hvcl.2⟩
            intro w hw
            exact bfs_push_visited_mono (hvcl.1 w hw)
        · exact Or.inl hvq
    intro v hv w hr
    exact ih ha' hb' hf v (bfs_push_visited_mono hv) w hr

theorem bfs_reach_true_found (graph label : List (String × List String))
    (q : String) (s : String) :
    ∀ visited queue, (∀ u ∈ queue, Reach graph s u) →
      bfs_reach graph label q visited queue = true →
      ∃ w, Reach graph s w ∧ q ∈ label_of label w := by
  intro visited queue
  induction visited, queue using bfs_reach.induct graph label q with
  | case1 visited =>
    intro _ hf
    rw [bfs_reach] at hf
    cases hf
  | case2 visited u rest hq =>
    intro hreach _
    exact ⟨u, hreach u (List.mem_cons_self _ _), hq⟩
  | case3 visited u rest hq ih =>
    intro hreach hf
    rw [bfs_reach, if_neg hq] at hf
    refine ih ?_ hf
    intro x hx
    rcases bfs_push_queue_cases hx with hx | hx
    · exact hreach x (List.mem_cons_of_mem _ hx)
    · exact Relation.ReflTransGen.tail (hreach u (List.mem_cons_self _ _)) hx

/-- Claim C9: the temporal check `G(p) → F(q)` terminates on every finite
directed fact-graph (the BFS is a total function, its recursion bounded by the
visited set growing inside the finite node set), and it returns `true` exactly
when from every graph node labeled `p` some node labeled `q` is reachable in
the plain fact-adjacency graph. -/
theorem c9_check_G_implies_F_correct (graph label : List (String × List String))
    (p q : String) :
    check_G_implies_F graph label p q = true ↔
      ∀ node ∈ graph.map (fun e : String × List String => e.1),
        p ∈ label_of label node →
        ∃ w, Reach graph node w ∧ q ∈ label_of label w := by
  unfold check_G_implies_F
  rw [List.all_eq_true]
  constructor
  · intro h node hnode hp
    have := h node hnode
    rw [if_pos hp] at this
    exact bfs_reach_true_found graph label q node [node] [node]
      (by
        intro u hu
        rw [List.mem_singleton.mp hu]
        exact Relation.ReflTransGen.refl) this
  · intro h node hnode
    by_cases hp : p ∈ label_of label node
    · rw [if_pos hp]
      obtain ⟨w, hw, hqw⟩ := h node hnode hp
      by_cases hres : bfs_reach graph label q [node] [node] = true
      · exact hres
      · exfalso
        have hfalse : bfs_reach graph label q [node] [node] = false :=
          Bool.eq_false_iff.mpr hres
        exact bfs_reach_false_no_q graph label q [node] [node]
          (by intro x hx; exact hx)
          (by intro v hv; exact Or.inl hv)
          hfalse node (List.mem_singleton_self _) w hw hqw
    · rw [if_neg hp]

end Lousa
